import Mathlib

set_option maxRecDepth 10000

/-!
Verification development for the `basesplit` repository.

The repository has two subsystems:
* `parse_receipt.py` — a receipt-extraction pipeline (image download, MIME
  sniffing, vision-model call with retry, JSON extraction from the raw model
  text, schema backfill and validation);
* `telegram_bot.py` — a split-payment conversation (receipt confirm/reject,
  wallet capture, participant count, per-person amount computation, and
  EIP-681-style payment-link construction).

This file gives a shallow embedding of those parts in Lean.  Python strings
are embedded as `List Char`; Python `float` values are embedded as the exact
rational value of the IEEE-754 double they denote, with binary-float
operations modelled by `doubleDiv` / `doubleMul` (round to nearest, ties to
even, 53-bit significand; the normal range only — overflow and subnormals do
not occur at the inputs considered here).  JSON values are embedded by the
inductive `JValue`, and Python dicts by insertion-ordered association lists.
All definitions are executable so that concrete runs of the code can be
evaluated inside proofs.
-/

namespace Basesplit

/-! ### Python string helpers -/

/-- Characters treated as whitespace by Python's `str.strip` and by the
regex class `\s` (ASCII range, which is all the source ever meets). -/
def isSpacePy (c : Char) : Bool :=
  c = ' ' || c = '\t' || c = '\n' || c = '\r' || c = '\x0b' || c = '\x0c'

/-- `s.strip()` — drop leading and trailing whitespace. -/
def pyStrip (l : List Char) : List Char :=
  ((l.dropWhile isSpacePy).reverse.dropWhile isSpacePy).reverse

/-- `s.rstrip(c)` for a single-character strip set. -/
def rstripChar (c : Char) (l : List Char) : List Char :=
  (l.reverse.dropWhile (fun d => d = c)).reverse

/-- Match a literal at the front of a character list, returning the rest. -/
def stripLit : List Char → List Char → Option (List Char)
  | [], r => some r
  | _ :: _, [] => none
  | p :: ps, c :: cs => if c = p then stripLit ps cs else none

/-- Abbreviation turning a Lean string literal into the `List Char`
embedding used everywhere in this file. -/
def lc (s : String) : List Char := s.toList

/-! ### Decimal digit rendering and parsing (fuel-based, kernel-computable) -/

/-- The character for a decimal digit. -/
def digitChar (d : ℕ) : Char := Char.ofNat (48 + d)

def isDigitChar (c : Char) : Bool := '0' ≤ c && c ≤ '9'

/-- Little-endian base-10 digits, with explicit fuel so that the kernel can
evaluate it (the fuel is always instantiated with the number itself). -/
def digitsFuel : ℕ → ℕ → List ℕ
  | 0, _ => []
  | f + 1, n => if n = 0 then [] else n % 10 :: digitsFuel f (n / 10)

def natDigits (n : ℕ) : List ℕ := digitsFuel n n

/-- Decimal rendering of a natural number, as Python's `str` would print it. -/
def natToChars (n : ℕ) : List Char :=
  if n = 0 then ['0'] else ((natDigits n).reverse.map digitChar)

/-- Decimal rendering of an integer. -/
def intToChars (i : ℤ) : List Char :=
  if i < 0 then '-' :: natToChars i.natAbs else natToChars i.toNat

/-- Value of a little-endian digit list. -/
def ofDigits10 : List ℕ → ℕ
  | [] => 0
  | d :: ds => d + 10 * ofDigits10 ds

/-- Fold one decimal character onto an accumulator. -/
def digitStep (acc : ℕ) (c : Char) : ℕ := 10 * acc + (c.toNat - 48)

/-- Numeric value of a (big-endian) string of decimal digit characters. -/
def charsToNat (cs : List Char) : ℕ := cs.foldl digitStep 0

/-- Python `int(s)` on an already-stripped string: optional sign followed by
at least one decimal digit. -/
def pyParseInt (cs : List Char) : Option ℤ :=
  let digs : List Char → Option ℕ := fun ds =>
    if ds ≠ [] && ds.all isDigitChar then some (charsToNat ds) else none
  match cs with
  | '+' :: ds => (digs ds).map (fun n => (n : ℤ))
  | '-' :: ds => (digs ds).map (fun n => -(n : ℤ))
  | ds => (digs ds).map (fun n => (n : ℤ))

/-! ### Base-2 magnitude of a rational (fuel-based binary logarithm) -/

/-- Floor of the base-2 logarithm of a natural number, with explicit fuel. -/
def log2Fuel : ℕ → ℕ → ℕ
  | 0, _ => 0
  | f + 1, n => if 2 ≤ n then log2Fuel f (n / 2) + 1 else 0

def natLog2 (n : ℕ) : ℕ := log2Fuel n n

/-- The unique `e` with `2 ^ e ≤ q < 2 ^ (e + 1)` for a positive rational,
computed from the bit lengths of numerator and denominator. -/
def ratExp2 (q : ℚ) : ℤ :=
  if (2 : ℚ) ^ ((natLog2 q.num.natAbs : ℤ) - (natLog2 q.den : ℤ)) ≤ q then
    (natLog2 q.num.natAbs : ℤ) - (natLog2 q.den : ℤ)
  else (natLog2 q.num.natAbs : ℤ) - (natLog2 q.den : ℤ) - 1

/-! ### IEEE-754 double rounding, on exact rationals -/

/-- Round a rational to the nearest integer, ties to even. -/
def rhe (x : ℚ) : ℤ :=
  if x - ⌊x⌋ < 1 / 2 then ⌊x⌋
  else if 1 / 2 < x - ⌊x⌋ then ⌊x⌋ + 1
  else if ⌊x⌋ % 2 = 0 then ⌊x⌋ else ⌊x⌋ + 1

/-- Round a positive rational to the nearest representable binary64 value
(53-bit significand, normal range). -/
def roundPos (q : ℚ) : ℚ :=
  let e := ratExp2 q
  (rhe (q * 2 ^ (52 - e)) : ℚ) * 2 ^ (e - 52)

/-- Round a rational to the nearest binary64 value (normal range). -/
def roundDouble (q : ℚ) : ℚ :=
  if q = 0 then 0 else if 0 < q then roundPos q else -roundPos (-q)

/-- Python float division `a / b` (the correctly rounded double quotient;
division by zero is handled separately at each call site, as `ZeroDivisionError`
is in Python). -/
def doubleDiv (a b : ℚ) : ℚ := roundDouble (a / b)

/-- Python float multiplication `a * b`. -/
def doubleMul (a b : ℚ) : ℚ := roundDouble (a * b)

/-! ### `extract_json` (parse_receipt.py, lines 95–104)

The source searches `text` for the Python regex
`` ```(?:json)?[\s]*({.*})[\s]*``` `` with `re.DOTALL` and, on a match,
returns `match.group(1).strip()`; otherwise it returns `text.strip()`.
The embedding below reproduces the leftmost-match-with-greedy-group
semantics of `re.search` for this particular pattern: at the leftmost
position where the whole pattern matches, the group runs from the first
`{` after the fence to the last `}` that is followed by optional
whitespace and a closing triple backtick. -/

/-- The triple-backtick fence of the regex. -/
def fenceLit : List Char := ['\x60', '\x60', '\x60']

/-- The optional `json` tag of the regex. -/
def jsonLit : List Char := ['j', 's', 'o', 'n']

/-- Does the text begin (after optional whitespace) with a closing fence?
This is the `[\s]*`‵`` ``` ``‵ tail of the regex. -/
def closesHere (cs : List Char) : Bool :=
  (stripLit fenceLit (cs.dropWhile isSpacePy)).isSome

/-- Greedy group body: the characters before the last `}` that is followed
by optional whitespace and a closing fence. -/
def findLastClose : List Char → Option (List Char)
  | [] => none
  | c :: rest =>
    match findLastClose rest with
    | some g => some (c :: g)
    | none => if c = '\x7d' && closesHere rest then some [] else none

/-- After the fence (and optional `json` tag): `[\s]*` then `{`, then the
greedy group up to its closing `}`. -/
def fenceBody (r : List Char) : Option (List Char) :=
  match r.dropWhile isSpacePy with
  | '\x7b' :: rest => (findLastClose rest).map (fun g => '\x7b' :: (g ++ ['\x7d']))
  | _ => none

/-- Attempt the whole regex at this position. -/
def fenceMatchAt (cs : List Char) : Option (List Char) :=
  match stripLit fenceLit cs with
  | none => none
  | some r0 =>
    match stripLit jsonLit r0 with
    | some r1 =>
      match fenceBody r1 with
      | some g => some g
      | none => fenceBody r0
    | none => fenceBody r0

/-- `re.search`: try the pattern at each position, left to right. -/
def reSearchFence : List Char → Option (List Char)
  | [] => none
  | c :: rest =>
    match fenceMatchAt (c :: rest) with
    | some g => some g
    | none => reSearchFence rest

/-- `extract_json` from parse_receipt.py: the fenced group stripped when the
regex matches, the whole text stripped otherwise. -/
def extract_json (text : List Char) : List Char :=
  match reSearchFence text with
  | some g => pyStrip g
  | none => pyStrip text

/-! ### JSON values and Python dicts

`JValue` embeds the values `json.loads` can produce (floats are embedded as
the exact rational value of the IEEE-754 double, see `roundDouble`).
Python dicts are insertion-ordered association lists with unique keys. -/

inductive JValue where
  | null
  | bool (b : Bool)
  | num (q : ℚ)
  | str (s : List Char)
  | arr (xs : List JValue)
  | obj (kvs : List (List Char × JValue))

/-- Numeric payload of a value, if any. -/
def JValue.asNum : JValue → Option ℚ
  | .num q => some q
  | _ => none

/-- String payload of a value, if any. -/
def JValue.asStr : JValue → Option (List Char)
  | .str s => some s
  | _ => none

/-- Is this JSON `null` (Python `None`)? -/
def JValue.isNull : JValue → Bool
  | .null => true
  | _ => false

/-- `d[k]` / `d.get(k)`: the value at the first (and, for a Python dict,
only) occurrence of the key. -/
def dictLookup (k : List Char) : List (List Char × JValue) → Option JValue
  | [] => none
  | (k', v) :: rest => if k' = k then some v else dictLookup k rest

/-- `d[k] = v`: replace in place if present, append otherwise (Python
insertion-order semantics). -/
def dictSet (d : List (List Char × JValue)) (k : List Char) (v : JValue) :
    List (List Char × JValue) :=
  match d with
  | [] => [(k, v)]
  | (k', v') :: rest => if k' = k then (k', v) :: rest else (k', v') :: dictSet rest k v

/-- `d.pop(k, None)`: drop the entry with the key, keep the rest in order. -/
def dictPop (k : List Char) : List (List Char × JValue) → List (List Char × JValue)
  | [] => []
  | (k', v) :: rest => if k' = k then rest else (k', v) :: dictPop k rest

/-- Python truthiness of a JSON value (`if receipt_data["is_receipt"]:`). -/
def pyTruthy : JValue → Bool
  | .null => false
  | .bool b => b
  | .num q => q ≠ 0
  | .str s => !s.isEmpty
  | .arr xs => !xs.isEmpty
  | .obj kvs => !kvs.isEmpty

/-- `d.get(k) is not None`: false when the key is absent or the value is
JSON null. -/
def isNotNone (o : Option JValue) : Bool :=
  match o with
  | some v => !v.isNull
  | none => false

/-! ### Schema backfill and validation (parse_receipt.py, lines 192–221) -/

/-- `base_expected_keys`, in the insertion order of the Python dict literal. -/
def base_expected_keys : List (List Char × JValue) :=
  [(lc "is_receipt", .bool false), (lc "merchant", .null), (lc "date", .null),
   (lc "total", .null), (lc "tax", .null), (lc "currency", .null), (lc "items", .arr [])]

/-- One step of the backfill loop: `if key not in receipt_data:
receipt_data[key] = default`. -/
def bfStep (acc : List (List Char × JValue)) (kv : List Char × JValue) :
    List (List Char × JValue) :=
  if (dictLookup kv.1 acc).isSome then acc else acc ++ [kv]

/-- Lines 203–206: for each base key absent from the parsed payload, store
the schema default (appending in iteration order, as dict assignment does). -/
def backfill (d : List (List Char × JValue)) : List (List Char × JValue) :=
  base_expected_keys.foldl bfStep d

/-- Line 213. -/
def required_fields : List (List Char) :=
  [lc "merchant", lc "total", lc "currency", lc "items"]

/-- Lines 208–221: if `is_receipt` is truthy, drop `message` and require the
four mandatory fields to be non-`None` (else `ValueError`, embedded as
`none`); otherwise store a `message`, defaulting it when absent.  A missing
`is_receipt` key would be a `KeyError`, also embedded as `none` (it cannot
occur after `backfill`). -/
def validate_receipt (d : List (List Char × JValue)) :
    Option (List (List Char × JValue)) :=
  match dictLookup (lc "is_receipt") d with
  | none => none
  | some v =>
    if pyTruthy v then
      let d1 := dictPop (lc "message") d
      if required_fields.all (fun k => isNotNone (dictLookup k d1)) then some d1 else none
    else
      some (dictSet d (lc "message")
        (match dictLookup (lc "message") d with
          | some m => m
          | none => .str (lc "Please provide a valid receipt image.")))

/-! ### MIME sniffing and the retrying model call -/

/-- The PNG signature checked at line 133. -/
def pngSig : List ℕ := [0x89, 0x50, 0x4E, 0x47, 0x0D, 0x0A, 0x1A, 0x0A]

/-- The `%PDF` signature checked at line 135. -/
def pdfSig : List ℕ := [0x25, 0x50, 0x44, 0x46]

/-- `bytes.startswith`. -/
def bytesStartWith : List ℕ → List ℕ → Bool
  | [], _ => true
  | _ :: _, [] => false
  | p :: ps, b :: bs => p = b && bytesStartWith ps bs

/-- Lines 131–137: PNG signature → `image/png`; `%PDF` → raise
`ValueError "PDF files not supported"` (embedded as `.error`); anything
else → `image/jpeg`. -/
def detect_mime (content : List ℕ) : Except (List Char) (List Char) :=
  if bytesStartWith pngSig content then .ok (lc "image/png")
  else if bytesStartWith pdfSig content then .error (lc "PDF files not supported")
  else .ok (lc "image/jpeg")

/-- The bounded retry loop of `call_openai_with_retry` (lines 79–93,
`stop_after_attempt(5)`).  `f i = none` is a transient provider exception on
attempt `i`; the result pairs the final outcome (`none` once the budget is
exhausted, which tenacity reports as `RetryError`) with the number of calls
actually made. -/
def retryLoop (f : ℕ → Option (List Char)) : ℕ → ℕ → Option (List Char) × ℕ
  | _, 0 => (none, 0)
  | i, b + 1 =>
    match f i with
    | some a => (some a, 1)
    | none =>
      let r := retryLoop f (i + 1) b
      (r.1, r.2 + 1)

def call_openai_with_retry (f : ℕ → Option (List Char)) : Option (List Char) × ℕ :=
  retryLoop f 0 5

/-! ### `json.loads`

A fuel-based JSON parser with CPython's `json.loads` (strict-mode)
semantics: JSON whitespace, `null`/`true`/`false`, numbers (leading-zero
rule; floats correctly rounded to binary64 via `roundDouble`), strings with
escapes (control characters rejected, as in strict mode; code points
outside Lean's `Char` — lone surrogates — are rejected, and `NaN`/`Infinity`
are rejected: in the source those can only produce a non-dict payload,
which `process_receipt` turns into `None` anyway), arrays, and objects with
Python's duplicate-key rule (first position, last value). -/

def jsonWs (c : Char) : Bool := c = ' ' || c = '\t' || c = '\n' || c = '\r'

def hexVal (c : Char) : Option ℕ :=
  if '0' ≤ c ∧ c ≤ '9' then some (c.toNat - 48)
  else if 'a' ≤ c ∧ c ≤ 'f' then some (c.toNat - 87)
  else if 'A' ≤ c ∧ c ≤ 'F' then some (c.toNat - 55)
  else none

def escChar (c : Char) : Option Char :=
  if c = '"' then some '"'
  else if c = '\\' then some '\\'
  else if c = '/' then some '/'
  else if c = 'b' then some '\x08'
  else if c = 'f' then some '\x0c'
  else if c = 'n' then some '\n'
  else if c = 'r' then some '\r'
  else if c = 't' then some '\t'
  else none

/-- Body of a JSON string, after the opening quote; returns the decoded
characters and the input after the closing quote. -/
def parseStrBody : ℕ → List Char → Option (List Char × List Char)
  | 0, _ => none
  | _ + 1, [] => none
  | f + 1, c :: rest =>
    if c = '"' then some ([], rest)
    else if c = '\\' then
      match rest with
      | [] => none
      | e :: r2 =>
        if e = 'u' then
          match r2 with
          | h1 :: h2 :: h3 :: h4 :: r3 =>
            match hexVal h1, hexVal h2, hexVal h3, hexVal h4 with
            | some a, some b, some c3, some d4 =>
              let code := ((a * 16 + b) * 16 + c3) * 16 + d4
              if h : code.isValidChar then
                (parseStrBody f r3).map (fun p => (Char.ofNatAux code h :: p.1, p.2))
              else none
            | _, _, _, _ => none
          | _ => none
        else
          match escChar e with
          | some ce => (parseStrBody f r2).map (fun p => (ce :: p.1, p.2))
          | none => none
    else if c.toNat < 32 then none
    else (parseStrBody f rest).map (fun p => (c :: p.1, p.2))

/-- A JSON number at the front of the input:
`-? (0 | [1-9][0-9]*) (\.[0-9]+)? ([eE][+-]?[0-9]+)?`.  Integer literals are
exact; any literal with a fraction or exponent becomes a Python float,
i.e. the decimal value correctly rounded to binary64. -/
def parseNum (cs : List Char) : Option (ℚ × List Char) :=
  let sgn : Bool × List Char := match cs with
    | '-' :: r => (true, r)
    | _ => (false, cs)
  match sgn.2.takeWhile isDigitChar, sgn.2.dropWhile isDigitChar with
  | [], _ => none
  | ds, r1 =>
    if 1 < ds.length ∧ ds.head? = some '0' then none
    else
      let ip : ℚ := (charsToNat ds : ℚ)
      let fracStep : Option (ℚ × Bool × List Char) := match r1 with
        | '.' :: r2 =>
          match r2.takeWhile isDigitChar, r2.dropWhile isDigitChar with
          | [], _ => none
          | fds, r3 => some (ip + (charsToNat fds : ℚ) / 10 ^ fds.length, true, r3)
        | _ => some (ip, false, r1)
      match fracStep with
      | none => none
      | some (q0, isF, r3) =>
        let expStep : Option (ℚ × Bool × List Char) := match r3 with
          | 'e' :: r4 => some (q0, true, r4)
          | 'E' :: r4 => some (q0, true, r4)
          | _ => none
        match expStep with
        | none =>
          let qv := if sgn.1 then -q0 else q0
          some (if isF then roundDouble qv else qv, r3)
        | some (_, _, r4) =>
          let esgn : Bool × List Char := match r4 with
            | '+' :: r5 => (false, r5)
            | '-' :: r5 => (true, r5)
            | _ => (false, r4)
          match esgn.2.takeWhile isDigitChar, esgn.2.dropWhile isDigitChar with
          | [], _ => none
          | eds, r6 =>
            let e := charsToNat eds
            let q1 := if esgn.1 then q0 / 10 ^ e else q0 * 10 ^ e
            let qv := if sgn.1 then -q1 else q1
            some (roundDouble qv, r6)

/-- Python's duplicate-key rule when building a dict from parsed members:
position of the first occurrence, value of the last. -/
def objCons (k : List Char) (v : JValue) (kvs : List (List Char × JValue)) :
    List (List Char × JValue) :=
  match dictLookup k kvs with
  | some v' => (k, v') :: dictPop k kvs
  | none => (k, v) :: kvs

/-- Parser modes: a value, the inside of `[`…`]` (possibly empty, or at
least one element), and the inside of `\x7b`…`\x7d`. -/
inductive PMode where
  | val
  | arrStart
  | arrVal
  | objStart
  | objMember

def parseJ : ℕ → PMode → List Char → Option (JValue × List Char)
  | 0, _, _ => none
  | f + 1, .val, cs =>
    match cs.dropWhile jsonWs with
    | [] => none
    | c :: rest =>
      if c = '\x7b' then parseJ f .objStart rest
      else if c = '[' then parseJ f .arrStart rest
      else if c = '"' then (parseStrBody (rest.length + 1) rest).map (fun p => (.str p.1, p.2))
      else match stripLit (lc "null") (c :: rest) with
        | some r => some (.null, r)
        | none => match stripLit (lc "true") (c :: rest) with
          | some r => some (.bool true, r)
          | none => match stripLit (lc "false") (c :: rest) with
            | some r => some (.bool false, r)
            | none => (parseNum (c :: rest)).map (fun p => (.num p.1, p.2))
  | f + 1, .arrStart, cs =>
    match cs.dropWhile jsonWs with
    | ']' :: rest => some (.arr [], rest)
    | _ => parseJ f .arrVal cs
  | f + 1, .arrVal, cs =>
    match parseJ f .val cs with
    | none => none
    | some (v, r1) =>
      match r1.dropWhile jsonWs with
      | ']' :: rest => some (.arr [v], rest)
      | ',' :: rest =>
        match parseJ f .arrVal rest with
        | some (.arr vs, r2) => some (.arr (v :: vs), r2)
        | _ => none
      | _ => none
  | f + 1, .objStart, cs =>
    match cs.dropWhile jsonWs with
    | '\x7d' :: rest => some (.obj [], rest)
    | _ => parseJ f .objMember cs
  | f + 1, .objMember, cs =>
    match cs.dropWhile jsonWs with
    | '"' :: rest =>
      match parseStrBody (rest.length + 1) rest with
      | none => none
      | some (k, r1) =>
        match r1.dropWhile jsonWs with
        | ':' :: r2 =>
          match parseJ f .val r2 with
          | none => none
          | some (v, r3) =>
            match r3.dropWhile jsonWs with
            | '\x7d' :: rest2 => some (.obj [(k, v)], rest2)
            | ',' :: rest2 =>
              match parseJ f .objMember rest2 with
              | some (.obj kvs, r4) => some (.obj (objCons k v kvs), r4)
              | _ => none
            | _ => none
        | _ => none
    | _ => none

/-- `json.loads`: parse one value and require only whitespace after it. -/
def pyJsonLoads (cs : List Char) : Option JValue :=
  match parseJ (3 * cs.length + 9) .val cs with
  | some (v, rest) => if rest.dropWhile jsonWs = [] then some v else none
  | none => none

/-! ### `process_receipt` (parse_receipt.py, lines 106–233)

The network download and the model call are the external collaborators: the
download outcome is the `downloaded` argument (`none` = a request exception,
caught at line 231 and turned into `None`), and attempt `i` of the model
call is `llm i`.  The source first tries langchain's structured parser and
falls back to `json.loads` (lines 185–190); the structured parser succeeds
exactly when `json.loads` succeeds on the same cleaned text *and* every
schema key is present, and it returns the same dict, so the composition is
`json.loads cleaned` whenever that parses and an exception (→ `None`,
line 228) otherwise.  A non-dict payload makes the later `in` /
subscript / assignment raise (`TypeError`), also caught and turned into
`None`.  The second component counts the model calls actually made. -/
def process_receipt (downloaded : Option (List ℕ)) (llm : ℕ → Option (List Char)) :
    Option (List (List Char × JValue)) × ℕ :=
  match downloaded with
  | none => (none, 0)
  | some content =>
    match detect_mime content with
    | .error _ => (none, 0)
    | .ok _ =>
      match call_openai_with_retry llm with
      | (none, k) => (none, k)
      | (some raw, k) =>
        match pyJsonLoads (extract_json raw) with
        | none => (none, k)
        | some (.obj kvs) =>
          match validate_receipt (backfill kvs) with
          | none => (none, k)
          | some d => (some d, k)
        | some _ => (none, k)

/-! ### telegram_bot.py — conversation state and session data -/

/-- Conversation states (line 61) and `ConversationHandler.END`. -/
def SPLIT_EVEN_WALLET : ℤ := 1

def SPLIT_EVEN_CONFIRM : ℤ := 2

def SPLIT_EVEN_NUMBER : ℤ := 3

def CONV_END : ℤ := -1

/-- The per-user `context.user_data` entries touched by the handlers.
`receipt_total` holds whatever `receipt_data.get("total", 0)` stored
(line 116), `wallet_address` the raw text stored at line 201, and
`eth_amount` the float stored at line 260. -/
structure UserData where
  receipt_total : Option JValue := none
  wallet_address : Option (List Char) := none
  eth_amount : Option ℚ := none

/-- What `handle_confirmation_callback` does besides answering the query. -/
inductive CallbackAction where
  | passThrough
  | promptReupload
  | offerSplitChoice
  | unknownAction

/-- Replies the split-flow handlers can produce. -/
inductive BotReply where
  | walletConfirmPrompt (addr : List Char)
  | errorMsg
  | paymentRequest (link : List Char) (eth dollars : ℚ)

/-- `handle_confirmation_callback` (lines 143–173): `split_even` /
`split_custom` are left to the dedicated handlers; `receipt_no` only asks
for a new image; `receipt_yes` offers the split choice; anything else is
"Unknown action."  The session data is not touched on any branch — in
particular the stored receipt total survives a rejection. -/
def handle_confirmation_callback (ud : UserData) (data : List Char) :
    UserData × CallbackAction :=
  if data = lc "split_even" ∨ data = lc "split_custom" then (ud, .passThrough)
  else if data = lc "receipt_no" then (ud, .promptReupload)
  else if data = lc "receipt_yes" then (ud, .offerSplitChoice)
  else (ud, .unknownAction)

/-- The session effect of `handle_receipt` (lines 109–141): `process_receipt`
returning `None` makes `.get` raise `AttributeError`, caught at line 139
(no session change); a falsy `is_receipt` only replies (no change);
otherwise `receipt_total` is overwritten with `receipt_data.get("total", 0)`. -/
def handle_receipt_store (ud : UserData)
    (receipt_data : Option (List (List Char × JValue))) : UserData :=
  match receipt_data with
  | none => ud
  | some d =>
    if pyTruthy ((dictLookup (lc "is_receipt") d).getD (.bool false)) then
      { ud with receipt_total := some ((dictLookup (lc "total") d).getD (.num 0)) }
    else ud

/-- `split_even_wallet_handler` (lines 196–213): stores the stripped text as
the wallet address — with no validation of any kind — and always advances to
the confirmation state. -/
def split_even_wallet_handler (ud : UserData) (text : List Char) :
    UserData × ℤ × BotReply :=
  let wallet_address := pyStrip text
  ({ ud with wallet_address := some wallet_address }, SPLIT_EVEN_CONFIRM,
    .walletConfirmPrompt wallet_address)

/-- `split_even_wallet_confirm_handler` (lines 215–233).  Note the stored
address is not cleared on `wallet_no`. -/
def split_even_wallet_confirm_handler (ud : UserData) (data : List Char) :
    UserData × Option ℤ :=
  if data = lc "wallet_yes" then (ud, some SPLIT_EVEN_NUMBER)
  else if data = lc "wallet_no" then (ud, some SPLIT_EVEN_WALLET)
  else (ud, none)

/-! ### Payment-link construction (`create_link`, lines 235–245) -/

/-- Fixed-point rendering of a non-negative integer number of millionths,
always with six digits after the point: this is what Python's
`format(x, 'f')` prints (default precision 6). -/
def fixedOfNat (m : ℕ) : List Char :=
  natToChars (m / 10 ^ 6) ++ '.' ::
    (List.replicate (6 - (natToChars (m % 10 ^ 6)).length) '0' ++ natToChars (m % 10 ^ 6))

/-- `format(value, 'f')`: the value correctly rounded (half to even) to six
decimal places, in fixed-point notation. -/
def formatFixed (q : ℚ) : List Char :=
  if q < 0 then '-' :: fixedOfNat (rhe (-q * 10 ^ 6)).toNat
  else fixedOfNat (rhe (q * 10 ^ 6)).toNat

/-- Lines 242–244: strip trailing zeros and then a trailing point, but only
when the rendered string contains a point. -/
def stripValueStr (value_str : List Char) : List Char :=
  if value_str.contains '.' then rstripChar '.' (rstripChar '0' value_str) else value_str

/-- `create_link` (lines 235–245): render the value with `format(_, 'f')`,
strip trailing zeros and a trailing point, and build the EIP-681-style
descriptor `send/pay-<recipient>@<chain>?value=<amount>`. -/
def create_link (recipient : List Char) (chain_id : ℤ) (value_in_wei : ℚ) : List Char :=
  lc "send/pay-" ++ recipient ++ '@' :: intToChars chain_id ++ lc "?value=" ++
    stripValueStr (formatFixed value_in_wei)

/-- A fixed-point decimal numeral (optional sign, integer digits, optional
fraction), as a wallet application would read the `value` field back. -/
def parseDecimalQ (cs : List Char) : Option ℚ :=
  let neg : Bool := cs.head? = some '-'
  let cs1 := if neg then cs.tail else cs
  let ds := cs1.takeWhile isDigitChar
  let r1 := cs1.dropWhile isDigitChar
  if ds = [] then none
  else
    let ip : ℚ := (charsToNat ds : ℚ)
    match r1 with
    | [] => some (if neg then -ip else ip)
    | '.' :: r2 =>
      if r2 ≠ [] ∧ r2.all isDigitChar then
        some (if neg then -(ip + (charsToNat r2 : ℚ) / 10 ^ r2.length)
          else ip + (charsToNat r2 : ℚ) / 10 ^ r2.length)
      else none
    | _ => none

/-- Parse a `send/pay-<recipient>@<chain>?value=<amount>` descriptor back
into its components. -/
def parse_payment_link (l : List Char) : Option (List Char × ℤ × ℚ) :=
  match stripLit (lc "send/pay-") l with
  | none => none
  | some r =>
    match r.dropWhile (fun c => c ≠ '@') with
    | '@' :: r2 =>
      let addr := r.takeWhile (fun c => c ≠ '@')
      let cneg : Bool := r2.head? = some '-'
      let r2' := if cneg then r2.tail else r2
      let cds := r2'.takeWhile isDigitChar
      let r3 := r2'.dropWhile isDigitChar
      if cds = [] then none
      else
        match stripLit (lc "?value=") r3 with
        | none => none
        | some vs =>
          (parseDecimalQ vs).map (fun v =>
            (addr, (if cneg then -(charsToNat cds : ℤ) else (charsToNat cds : ℤ)), v))
    | _ => none

/-! ### Address checksumming and the split computation -/

def isHexDigitChar (c : Char) : Bool :=
  isDigitChar c || ('a' ≤ c && c ≤ 'f') || ('A' ≤ c && c ≤ 'F')

def toLowerHex (c : Char) : Char :=
  if 'A' ≤ c && c ≤ 'F' then Char.ofNat (c.toNat + 32) else c

def stripHexPre (s : List Char) : List Char :=
  match s with
  | '0' :: 'x' :: r => r
  | '0' :: 'X' :: r => r
  | r => r

/-- `Web3.to_checksum_address` (the external `web3`/`eth_utils`
collaborator, called at line 250): requires 40 hex digits with an optional
`0x` prefix — anything else raises, embedded as `none` — then lowercases the
digits and re-capitalizes each letter whose corresponding nibble of
`keccak256` of the lowercase address is ≥ 8 (EIP-55).  The Keccak-256
digest is itself external and is passed in as the nibble sequence
`keccak`. -/
def to_checksum_address (keccak : List Char → List ℕ) (s : List Char) :
    Option (List Char) :=
  let body := stripHexPre s
  if body.length = 40 ∧ body.all isHexDigitChar then
    let lower := body.map toLowerHex
    let nibbles := keccak lower
    some ('0' :: 'x' :: (lower.enum.map (fun p =>
      if 8 ≤ nibbles.getD p.1 0 && ('a' ≤ p.2 && p.2 ≤ 'f') then
        Char.ofNat (p.2.toNat - 32)
      else p.2)))
  else none

/-- Line 253: `float(receipt_total / num)` — binary64 division. -/
def each_person_dollars (total : ℚ) (num : ℤ) : ℚ := doubleDiv total (num : ℚ)

/-- What dividing a stored `receipt_total` value means in Python: numbers
divide; booleans divide as 0/1; anything else raises `TypeError`. -/
def jNumVal : JValue → Option ℚ
  | .num q => some q
  | .bool b => some (if b then 1 else 0)
  | _ => none

/-- `split_even_number_handler` (lines 247–297).  The whole body is wrapped
in `try/except Exception` whose handler replies `"Error: …"` and returns
`ConversationHandler.END`, so *every* failure — non-numeric text
(`ValueError` from `int`), a missing or invalid stored wallet address, a
missing or non-numeric stored total, division by zero (entered count −1, or
a zero oracle price), or an oracle failure (`price = none`) — produces
`(errorMsg, END)` with the session data unchanged; no branch re-prompts or
stays in a conversation state.  On success the handler stores `eth_amount`,
builds the link and also returns `END`. -/
def split_even_number_handler (keccak : List Char → List ℕ) (price : Option ℚ)
    (ud : UserData) (text : List Char) : UserData × ℤ × BotReply :=
  match pyParseInt (pyStrip text) with
  | none => (ud, CONV_END, .errorMsg)
  | some n =>
    match ud.wallet_address with
    | none => (ud, CONV_END, .errorMsg)
    | some w =>
      match to_checksum_address keccak w with
      | none => (ud, CONV_END, .errorMsg)
      | some base_wallet =>
        match ud.receipt_total with
        | none => (ud, CONV_END, .errorMsg)
        | some tv =>
          match jNumVal tv with
          | none => (ud, CONV_END, .errorMsg)
          | some total =>
            if n + 1 = 0 then (ud, CONV_END, .errorMsg)
            else
              match price with
              | none => (ud, CONV_END, .errorMsg)
              | some p =>
                if p = 0 then (ud, CONV_END, .errorMsg)
                else
                  ({ ud with
                      eth_amount := some (doubleDiv (each_person_dollars total (n + 1)) p) },
                    CONV_END,
                    .paymentRequest
                      (create_link base_wallet 84532
                        (doubleMul (doubleDiv (each_person_dollars total (n + 1)) p) (10 ^ 18)))
                      (doubleDiv (each_person_dollars total (n + 1)) p)
                      (each_person_dollars total (n + 1)))

/-! ### Facts about the digit machinery -/

theorem ofDigits10_digitsFuel (f : ℕ) : ∀ n : ℕ, n ≤ f → ofDigits10 (digitsFuel f n) = n := by
  induction f with
  | zero => intro n hn; interval_cases n; simp [digitsFuel, ofDigits10]
  | succ f ih =>
    intro n hn
    by_cases h0 : n = 0
    · simp [digitsFuel, h0, ofDigits10]
    · have hdiv : n / 10 ≤ f := by
        have : n / 10 < n := Nat.div_lt_self (Nat.pos_of_ne_zero h0) (by norm_num)
        omega
      simp only [digitsFuel, h0, if_false, ofDigits10]
      rw [ih (n / 10) hdiv]
      omega

theorem ofDigits10_natDigits (n : ℕ) : ofDigits10 (natDigits n) = n :=
  ofDigits10_digitsFuel n n le_rfl

theorem digitsFuel_lt_ten (f : ℕ) : ∀ n d, d ∈ digitsFuel f n → d < 10 := by
  induction f with
  | zero => intro n d h; simp [digitsFuel] at h
  | succ f ih =>
    intro n d h
    by_cases h0 : n = 0
    · simp [digitsFuel, h0] at h
    · simp only [digitsFuel, h0, if_false, List.mem_cons] at h
      rcases h with h | h
      · subst h; exact Nat.mod_lt _ (by norm_num)
      · exact ih _ _ h

theorem digitStep_digitChar (acc d : ℕ) (hd : d < 10) :
    digitStep acc (digitChar d) = 10 * acc + d := by
  interval_cases d <;> rfl

theorem isDigitChar_digitChar (d : ℕ) (hd : d < 10) : isDigitChar (digitChar d) = true := by
  interval_cases d <;> rfl

theorem foldl_digitStep_append (acc : ℕ) (l₁ l₂ : List Char) :
    (l₁ ++ l₂).foldl digitStep acc = l₂.foldl digitStep (l₁.foldl digitStep acc) := by
  simp [List.foldl_append]

/-- Folding decimal characters of a digit list (most significant first). -/
theorem foldl_digitStep_digits (ds : List ℕ) (hds : ∀ d ∈ ds, d < 10) (acc : ℕ) :
    ((ds.reverse.map digitChar).foldl digitStep acc) = acc * 10 ^ ds.length + ofDigits10 ds := by
  induction ds generalizing acc with
  | nil => simp [ofDigits10]
  | cons d ds ih =>
    have hd : d < 10 := hds d (List.mem_cons_self _ _)
    have hds' : ∀ x ∈ ds, x < 10 := fun x hx => hds x (List.mem_cons_of_mem _ hx)
    simp only [List.reverse_cons, List.map_append, List.map_cons, List.map_nil,
      foldl_digitStep_append, ih hds', ofDigits10, List.length_cons]
    simp only [List.foldl_cons, List.foldl_nil, digitStep_digitChar _ _ hd]
    ring

theorem charsToNat_natToChars (n : ℕ) : charsToNat (natToChars n) = n := by
  by_cases h0 : n = 0
  · subst h0; rfl
  · unfold charsToNat natToChars natDigits
    simp only [h0, if_false]
    rw [foldl_digitStep_digits _ (fun d hd => digitsFuel_lt_ten n n d hd) 0]
    simpa [digitsFuel] using ofDigits10_natDigits n

theorem natToChars_all_digits (n : ℕ) : (natToChars n).all isDigitChar = true := by
  unfold natToChars
  by_cases h0 : n = 0
  · simp [h0]; rfl
  · simp only [h0, if_false, List.all_eq_true]
    intro c hc
    simp only [List.mem_map, List.mem_reverse] at hc
    obtain ⟨d, hd, rfl⟩ := hc
    exact isDigitChar_digitChar d (digitsFuel_lt_ten n n d hd)

/-! ### The binary-logarithm bracketing and the rounding error bound -/

theorem log2Fuel_spec (f : ℕ) :
    ∀ n, 1 ≤ n → n ≤ f → 2 ^ log2Fuel f n ≤ n ∧ n < 2 ^ (log2Fuel f n + 1) := by
  induction f with
  | zero => intro n h1 h2; omega
  | succ f ih =>
    intro n h1 h2
    by_cases h : 2 ≤ n
    · have hdiv1 : 1 ≤ n / 2 := Nat.one_le_div_iff (by norm_num) |>.mpr h
      have hdivf : n / 2 ≤ f := by
        have : n / 2 < n := Nat.div_lt_self (by omega) (by norm_num)
        omega
      obtain ⟨ha, hb⟩ := ih (n / 2) hdiv1 hdivf
      have hmod : 2 * (n / 2) + n % 2 = n := Nat.div_add_mod n 2
      have hm2 : n % 2 < 2 := Nat.mod_lt _ (by norm_num)
      simp only [log2Fuel, h, if_true]
      constructor
      · rw [pow_succ]; omega
      · rw [pow_succ]; rw [pow_succ] at hb; omega
    · have hn1 : n = 1 := by omega
      subst hn1
      simp [log2Fuel, h]

theorem natLog2_spec (n : ℕ) (h1 : 1 ≤ n) : 2 ^ natLog2 n ≤ n ∧ n < 2 ^ (natLog2 n + 1) :=
  log2Fuel_spec n n h1 le_rfl

/-- `ratExp2` brackets a positive rational between consecutive powers of two. -/
theorem ratExp2_spec (q : ℚ) (hq : 0 < q) :
    (2 : ℚ) ^ ratExp2 q ≤ q ∧ q < (2 : ℚ) ^ (ratExp2 q + 1) := by
  have hnum : 0 < q.num := Rat.num_pos.mpr hq
  have hden : 0 < q.den := q.pos
  set na := q.num.natAbs with hna
  have hna1 : 1 ≤ na := by omega
  have hcast : ((na : ℤ) : ℚ) = (q.num : ℚ) := by
    rw [hna, Int.natAbs_of_nonneg hnum.le]
  have hqe : q = (na : ℚ) / (q.den : ℚ) := by
    rw [show ((na : ℚ)) = ((na : ℤ) : ℚ) by push_cast; ring, hcast, Rat.num_div_den]
  obtain ⟨haL, haU⟩ := natLog2_spec na hna1
  obtain ⟨hbL, hbU⟩ := natLog2_spec q.den hden
  set a := natLog2 na with ha
  set b := natLog2 q.den with hb
  have haLq : (2 : ℚ) ^ (a : ℤ) ≤ (na : ℚ) := by
    rw [zpow_natCast]; exact_mod_cast haL
  have haUq : (na : ℚ) < (2 : ℚ) ^ ((a : ℤ) + 1) := by
    rw [show ((a : ℤ) + 1) = ((a + 1 : ℕ) : ℤ) by push_cast; ring, zpow_natCast]
    exact_mod_cast haU
  have hbLq : (2 : ℚ) ^ (b : ℤ) ≤ (q.den : ℚ) := by
    rw [zpow_natCast]; exact_mod_cast hbL
  have hbUq : (q.den : ℚ) < (2 : ℚ) ^ ((b : ℤ) + 1) := by
    rw [show ((b : ℤ) + 1) = ((b + 1 : ℕ) : ℤ) by push_cast; ring, zpow_natCast]
    exact_mod_cast hbU
  have hdq : (0 : ℚ) < (q.den : ℚ) := by exact_mod_cast hden
  have h2 : (0 : ℚ) < 2 := by norm_num
  have hzb : (0 : ℚ) < (2 : ℚ) ^ (b : ℤ) := zpow_pos h2 _
  have hzb1 : (0 : ℚ) < (2 : ℚ) ^ ((b : ℤ) + 1) := zpow_pos h2 _
  have hre : ratExp2 q =
      if (2 : ℚ) ^ ((a : ℤ) - (b : ℤ)) ≤ q then (a : ℤ) - b else (a : ℤ) - b - 1 := by
    unfold ratExp2
    rw [← hna, ← ha, ← hb]
  rw [hre]
  split_ifs with hc
  · refine ⟨hc, ?_⟩
    have step1 : q ≤ (na : ℚ) / (2 : ℚ) ^ (b : ℤ) := by
      rw [hqe]
      gcongr
    have step2 : (na : ℚ) / (2 : ℚ) ^ (b : ℤ) < (2 : ℚ) ^ ((a : ℤ) + 1) / (2 : ℚ) ^ (b : ℤ) := by
      gcongr
    have step3 : (2 : ℚ) ^ ((a : ℤ) + 1) / (2 : ℚ) ^ (b : ℤ) = (2 : ℚ) ^ ((a : ℤ) - b + 1) := by
      rw [← zpow_sub₀ (by norm_num : (2 : ℚ) ≠ 0)]
      congr 1
      ring
    calc q ≤ (na : ℚ) / (2 : ℚ) ^ (b : ℤ) := step1
      _ < (2 : ℚ) ^ ((a : ℤ) + 1) / (2 : ℚ) ^ (b : ℤ) := step2
      _ = (2 : ℚ) ^ ((a : ℤ) - b + 1) := step3
  · refine ⟨?_, by rw [show (a : ℤ) - b - 1 + 1 = (a : ℤ) - b by ring]; exact lt_of_not_le hc⟩
    have step1 : (2 : ℚ) ^ ((a : ℤ) - b - 1) = (2 : ℚ) ^ (a : ℤ) / (2 : ℚ) ^ ((b : ℤ) + 1) := by
      rw [← zpow_sub₀ (by norm_num : (2 : ℚ) ≠ 0)]
      congr 1
      ring
    have step2 : (2 : ℚ) ^ (a : ℤ) / (2 : ℚ) ^ ((b : ℤ) + 1) ≤ (na : ℚ) / (2 : ℚ) ^ ((b : ℤ) + 1) := by
      gcongr
    have step3 : (na : ℚ) / (2 : ℚ) ^ ((b : ℤ) + 1) ≤ (na : ℚ) / (q.den : ℚ) := by
      gcongr
    calc (2 : ℚ) ^ ((a : ℤ) - b - 1) = (2 : ℚ) ^ (a : ℤ) / (2 : ℚ) ^ ((b : ℤ) + 1) := step1
      _ ≤ (na : ℚ) / (2 : ℚ) ^ ((b : ℤ) + 1) := step2
      _ ≤ (na : ℚ) / (q.den : ℚ) := step3
      _ = q := hqe.symm

/-- Rounding to the nearest integer moves a rational by at most one half. -/
theorem abs_rhe_sub_le (x : ℚ) : |(rhe x : ℚ) - x| ≤ 1 / 2 := by
  have hfl : (⌊x⌋ : ℚ) ≤ x := Int.floor_le x
  have hlt : x < ⌊x⌋ + 1 := Int.lt_floor_add_one x
  rw [abs_le]
  unfold rhe
  split_ifs with h1 h2 h3 <;> constructor <;> push_cast <;> linarith

/-- `rhe` is the identity on integers. -/
theorem rhe_intCast (m : ℤ) : rhe (m : ℚ) = m := by
  unfold rhe
  rw [Int.floor_intCast]
  norm_num

/-- The rounded double is within relative error `2 ^ (-53)` of a positive
rational (normal range). -/
theorem roundPos_err (q : ℚ) (hq : 0 < q) : |roundPos q - q| ≤ q / 2 ^ 53 := by
  obtain ⟨hle, _⟩ := ratExp2_spec q hq
  set e := ratExp2 q with he
  have h2 : (2 : ℚ) ≠ 0 := by norm_num
  have hscale : (0 : ℚ) < (2 : ℚ) ^ (e - 52) := zpow_pos (by norm_num) _
  have hqm : q * 2 ^ (52 - e) * 2 ^ (e - 52) = q := by
    rw [mul_assoc, ← zpow_add₀ h2]
    norm_num
  have hkey : roundPos q - q = ((rhe (q * 2 ^ (52 - e)) : ℚ) - q * 2 ^ (52 - e)) * 2 ^ (e - 52) := by
    unfold roundPos
    rw [← he, sub_mul, hqm]
  rw [hkey, abs_mul, abs_of_pos hscale]
  have hstep : |(rhe (q * 2 ^ (52 - e)) : ℚ) - q * 2 ^ (52 - e)| * 2 ^ (e - 52)
      ≤ (1 / 2) * 2 ^ (e - 52) := by
    gcongr
    exact abs_rhe_sub_le _
  refine hstep.trans ?_
  have hL : (1 / 2 : ℚ) * 2 ^ (e - 52) = 2 ^ (e - 53) := by
    rw [show (1 / 2 : ℚ) = 2 ^ (-1 : ℤ) by rw [zpow_neg, zpow_one]; norm_num,
      ← zpow_add₀ h2]
    congr 1
    ring
  have hR : (2 : ℚ) ^ e / 2 ^ 53 = 2 ^ (e - 53) := by
    rw [show ((2 : ℚ) ^ (53 : ℕ)) = (2 : ℚ) ^ ((53 : ℤ)) from (zpow_natCast 2 53).symm,
      div_eq_mul_inv, ← zpow_neg, ← zpow_add₀ h2]
    congr 1
  rw [hL, ← hR]
  gcongr

/-! #### Lemmas about `extract_json` -/

theorem stripLit_cons_ne (p : Char) (ps : List Char) (c : Char) (cs : List Char)
    (h : c ≠ p) : stripLit (p :: ps) (c :: cs) = none := by
  simp [stripLit, h]

theorem fenceMatchAt_of_ne (c : Char) (cs : List Char) (h : c ≠ '\x60') :
    fenceMatchAt (c :: cs) = none := by
  unfold fenceMatchAt
  rw [show stripLit fenceLit (c :: cs) = none from stripLit_cons_ne _ _ _ _ h]

theorem reSearchFence_append (pre l : List Char) (h : ∀ c ∈ pre, c ≠ '\x60') :
    reSearchFence (pre ++ l) = reSearchFence l := by
  induction pre with
  | nil => rfl
  | cons a pre ih =>
    have ha : a ≠ '\x60' := h a (List.mem_cons_self _ _)
    have h' : ∀ c ∈ pre, c ≠ '\x60' := fun c hc => h c (List.mem_cons_of_mem _ hc)
    simp only [List.cons_append, reSearchFence, fenceMatchAt_of_ne a _ ha]
    exact ih h'

theorem closesHere_of_no_backtick (l : List Char) (h : ∀ c ∈ l, c ≠ '\x60') :
    closesHere l = false := by
  unfold closesHere
  have hsub : ∀ c ∈ l.dropWhile isSpacePy, c ≠ '\x60' := fun c hc =>
    h c ((List.dropWhile_sublist _).mem hc)
  cases hd : l.dropWhile isSpacePy with
  | nil => rfl
  | cons c rest =>
    have hc : c ≠ '\x60' := by
      apply hsub
      rw [hd]
      exact List.mem_cons_self _ _
    rw [show fenceLit = '\x60' :: ['\x60', '\x60'] from rfl, stripLit_cons_ne _ _ _ _ hc]
    rfl

theorem findLastClose_of_no_backtick (l : List Char) (h : ∀ c ∈ l, c ≠ '\x60') :
    findLastClose l = none := by
  induction l with
  | nil => rfl
  | cons c rest ih =>
    have h' : ∀ d ∈ rest, d ≠ '\x60' := fun d hd => h d (List.mem_cons_of_mem _ hd)
    rw [show findLastClose (c :: rest) =
        (match findLastClose rest with
          | some g => some (c :: g)
          | none => if c = '\x7d' && closesHere rest then some [] else none) from rfl,
      ih h', closesHere_of_no_backtick rest h']
    simp

/-- One-step unfolding of `findLastClose`. -/
theorem findLastClose_cons (c : Char) (l : List Char) :
    findLastClose (c :: l) =
      (match findLastClose l with
        | some g => some (c :: g)
        | none => if c = '\x7d' && closesHere l then some [] else none) := rfl

/-- In `body ++ "}\n```" ++ post` with no backticks in `post`, the greedy
group closes exactly at the displayed `}`. -/
theorem findLastClose_closed (post : List Char) (hp : ∀ c ∈ post, c ≠ '\x60') :
    ∀ body : List Char,
      findLastClose (body ++ '\x7d' :: '\n' :: '\x60' :: '\x60' :: '\x60' :: post) = some body := by
  have hpost : findLastClose post = none := findLastClose_of_no_backtick post hp
  have h3 : findLastClose ('\x60' :: post) = none := by
    rw [findLastClose_cons, hpost]
    rfl
  have h2 : findLastClose ('\x60' :: '\x60' :: post) = none := by
    rw [findLastClose_cons, h3]
    rfl
  have h1 : findLastClose ('\x60' :: '\x60' :: '\x60' :: post) = none := by
    rw [findLastClose_cons, h2]
    rfl
  have h0 : findLastClose ('\n' :: '\x60' :: '\x60' :: '\x60' :: post) = none := by
    rw [findLastClose_cons, h1]
    rfl
  have hclose : closesHere ('\n' :: '\x60' :: '\x60' :: '\x60' :: post) = true := by
    unfold closesHere
    rw [List.dropWhile_cons, if_pos (by decide : isSpacePy '\n' = true),
      List.dropWhile_cons, if_neg (by decide : ¬ isSpacePy '\x60' = true)]
    simp [stripLit, fenceLit]
  have hbase :
      findLastClose ('\x7d' :: '\n' :: '\x60' :: '\x60' :: '\x60' :: post) = some [] := by
    rw [findLastClose_cons, h0, hclose]
    rfl
  intro body
  induction body with
  | nil => simpa using hbase
  | cons c body ih =>
    rw [List.cons_append, findLastClose_cons, ih]

theorem reSearchFence_none (t : List Char) (h : ∀ c ∈ t, c ≠ '\x60') :
    reSearchFence t = none := by
  have := reSearchFence_append t [] h
  simpa using this

/-- Without any backtick in the text, the regex does not match and
`extract_json` returns the whole text stripped — surrounding prose is kept. -/
theorem extract_json_no_fence (t : List Char) (h : ∀ c ∈ t, c ≠ '\x60') :
    extract_json t = pyStrip t := by
  unfold extract_json
  rw [reSearchFence_none t h]

theorem pyStrip_braced (l : List Char) :
    pyStrip ('\x7b' :: (l ++ ['\x7d'])) = '\x7b' :: (l ++ ['\x7d']) := by
  have hfront : List.dropWhile isSpacePy ('\x7b' :: (l ++ ['\x7d'])) = '\x7b' :: (l ++ ['\x7d']) := by
    rw [List.dropWhile_cons, if_neg (by decide : ¬ isSpacePy '\x7b' = true)]
  have hrev : ('\x7b' :: (l ++ ['\x7d'])).reverse = '\x7d' :: (l.reverse ++ ['\x7b']) := by
    simp
  have hback : List.dropWhile isSpacePy ('\x7d' :: (l.reverse ++ ['\x7b']))
      = '\x7d' :: (l.reverse ++ ['\x7b']) := by
    rw [List.dropWhile_cons, if_neg (by decide : ¬ isSpacePy '\x7d' = true)]
  unfold pyStrip
  rw [hfront, hrev, hback]
  simp

theorem fenceBody_eq (r rest : List Char) (hd : r.dropWhile isSpacePy = '\x7b' :: rest) :
    fenceBody r = (findLastClose rest).map (fun g => '\x7b' :: (g ++ ['\x7d'])) := by
  unfold fenceBody
  rw [hd]
  rfl

theorem reSearchFence_cons (c : Char) (rest : List Char) :
    reSearchFence (c :: rest) =
      (match fenceMatchAt (c :: rest) with
        | some g => some g
        | none => reSearchFence rest) := rfl

/-- A fenced `{…}` block is extracted as the group from its first `{` to the
last `}` before the closing fence: with no backticks before the fence or
after it, that is exactly the braced body. -/
theorem extract_json_fenced (pre body post : List Char)
    (hpre : ∀ c ∈ pre, c ≠ '\x60') (hpost : ∀ c ∈ post, c ≠ '\x60') :
    extract_json
        (pre ++ '\x60' :: '\x60' :: '\x60' :: 'j' :: 's' :: 'o' :: 'n' :: '\n' :: '\x7b' ::
          (body ++ '\x7d' :: '\n' :: '\x60' :: '\x60' :: '\x60' :: post))
      = '\x7b' :: body ++ ['\x7d'] := by
  set M := body ++ '\x7d' :: '\n' :: '\x60' :: '\x60' :: '\x60' :: post with hM
  have hfb : fenceBody ('\n' :: '\x7b' :: M) = some ('\x7b' :: body ++ ['\x7d']) := by
    rw [fenceBody_eq ('\n' :: '\x7b' :: M) M rfl, hM, findLastClose_closed post hpost body]
    rfl
  have hfm :
      fenceMatchAt ('\x60' :: '\x60' :: '\x60' :: 'j' :: 's' :: 'o' :: 'n' :: '\n' :: '\x7b' :: M)
        = some ('\x7b' :: body ++ ['\x7d']) := by
    rw [show fenceMatchAt
          ('\x60' :: '\x60' :: '\x60' :: 'j' :: 's' :: 'o' :: 'n' :: '\n' :: '\x7b' :: M) =
        (match fenceBody ('\n' :: '\x7b' :: M) with
          | some g => some g
          | none => fenceBody ('j' :: 's' :: 'o' :: 'n' :: '\n' :: '\x7b' :: M)) from rfl, hfb]
  have hsearch :
      reSearchFence
          (pre ++ '\x60' :: '\x60' :: '\x60' :: 'j' :: 's' :: 'o' :: 'n' :: '\n' :: '\x7b' :: M)
        = some ('\x7b' :: body ++ ['\x7d']) := by
    rw [reSearchFence_append pre _ hpre, reSearchFence_cons, hfm]
  unfold extract_json
  rw [hsearch]
  exact pyStrip_braced body

/-! ### Dictionary lemmas -/

theorem dictLookup_append (k : List Char) (l₁ l₂ : List (List Char × JValue)) :
    dictLookup k (l₁ ++ l₂) =
      (match dictLookup k l₁ with
        | some v => some v
        | none => dictLookup k l₂) := by
  induction l₁ with
  | nil => rfl
  | cons kv rest ih =>
    obtain ⟨k', v⟩ := kv
    by_cases h : k' = k
    · simp [dictLookup, h]
    · simp [dictLookup, h, ih]

theorem bfStep_preserve {acc : List (List Char × JValue)} {kv : List Char × JValue}
    {k : List Char} {u : JValue} (h : dictLookup k acc = some u) :
    dictLookup k (bfStep acc kv) = some u := by
  unfold bfStep
  split_ifs with hs
  · exact h
  · rw [dictLookup_append, h]

theorem bfStep_other {acc : List (List Char × JValue)} {kv : List Char × JValue}
    {k : List Char} (hne : kv.1 ≠ k) :
    dictLookup k (bfStep acc kv) = dictLookup k acc := by
  unfold bfStep
  split_ifs with hs
  · rfl
  · rw [dictLookup_append]
    cases h : dictLookup k acc with
    | some u => rfl
    | none => simp [dictLookup, hne]

theorem bfStep_fill {acc : List (List Char × JValue)} {kv : List Char × JValue}
    (h : dictLookup kv.1 acc = none) :
    dictLookup kv.1 (bfStep acc kv) = some kv.2 := by
  unfold bfStep
  rw [if_neg (by simp [h]), dictLookup_append, h]
  simp [dictLookup]

theorem foldl_bfStep_preserve (l : List (List Char × JValue))
    {acc : List (List Char × JValue)} {k : List Char} {u : JValue}
    (h : dictLookup k acc = some u) :
    dictLookup k (l.foldl bfStep acc) = some u := by
  induction l generalizing acc with
  | nil => exact h
  | cons kv rest ih => exact ih (bfStep_preserve h)

theorem foldl_bfStep_other (l : List (List Char × JValue))
    {acc : List (List Char × JValue)} {k : List Char}
    (hne : ∀ kv ∈ l, kv.1 ≠ k) :
    dictLookup k (l.foldl bfStep acc) = dictLookup k acc := by
  induction l generalizing acc with
  | nil => rfl
  | cons kv rest ih =>
    rw [List.foldl_cons, ih (fun x hx => hne x (List.mem_cons_of_mem _ hx)),
      bfStep_other (hne kv (List.mem_cons_self _ _))]

theorem dictLookup_foldl_bfStep (l : List (List Char × JValue))
    (hnd : (l.map Prod.fst).Nodup) :
    ∀ acc k v, (k, v) ∈ l →
      dictLookup k (l.foldl bfStep acc) = some ((dictLookup k acc).getD v) := by
  induction l with
  | nil => intro acc k v h; cases h
  | cons kv rest ih =>
    intro acc k v hmem
    rw [List.map_cons, List.nodup_cons] at hnd
    rcases List.mem_cons.mp hmem with heq | hmem'
    · have hk1 : kv.1 = k := by rw [← heq]
      have hstep : dictLookup k (bfStep acc kv) = some ((dictLookup k acc).getD v) := by
        cases h : dictLookup k acc with
        | some u => simpa using bfStep_preserve h
        | none =>
          have h' : dictLookup kv.1 acc = none := by rw [hk1]; exact h
          have := bfStep_fill h'
          rw [hk1] at this
          rw [this]
          simp [← heq]
      rw [List.foldl_cons]
      exact foldl_bfStep_preserve rest hstep
    · have hk_ne : kv.1 ≠ k := by
        intro hcontra
        exact hnd.1 (hcontra ▸ (List.mem_map_of_mem Prod.fst hmem' : k ∈ rest.map Prod.fst))
      rw [List.foldl_cons, ih hnd.2 (bfStep acc kv) k v hmem', bfStep_other hk_ne]

/-- Base keys present in the payload survive the backfill unchanged; absent
base keys come out as their schema defaults. -/
theorem dictLookup_backfill (d : List (List Char × JValue)) (k : List Char) (v : JValue)
    (hmem : (k, v) ∈ base_expected_keys) :
    dictLookup k (backfill d) = some ((dictLookup k d).getD v) :=
  dictLookup_foldl_bfStep base_expected_keys (by decide) d k v hmem

/-- Keys outside the base schema (such as `message`) are untouched by the
backfill. -/
theorem dictLookup_backfill_other (d : List (List Char × JValue)) (k : List Char)
    (hne : ∀ kv ∈ base_expected_keys, kv.1 ≠ k) :
    dictLookup k (backfill d) = dictLookup k d :=
  foldl_bfStep_other base_expected_keys hne

theorem dictLookup_pop_ne (k k' : List Char) (hne : k ≠ k')
    (d : List (List Char × JValue)) :
    dictLookup k (dictPop k' d) = dictLookup k d := by
  induction d with
  | nil => rfl
  | cons kv rest ih =>
    obtain ⟨a, b⟩ := kv
    by_cases ha : a = k'
    · have hak : ¬ a = k := by rw [ha]; exact fun h => hne h.symm
      simp [dictPop, ha, dictLookup, hak, Ne.symm hne]
    · by_cases hak : a = k
      · simp [dictPop, ha, dictLookup, hak, hne]
      · simp [dictPop, ha, dictLookup, hak, ih]

theorem dictLookup_set_self (d : List (List Char × JValue)) (k : List Char) (v : JValue) :
    dictLookup k (dictSet d k v) = some v := by
  induction d with
  | nil => simp [dictSet, dictLookup]
  | cons kv rest ih =>
    obtain ⟨a, b⟩ := kv
    by_cases ha : a = k
    · simp [dictSet, ha, dictLookup]
    · simp [dictSet, ha, dictLookup, ih]

theorem dictLookup_set_other (d : List (List Char × JValue)) (k k' : List Char) (v : JValue)
    (hne : k' ≠ k) :
    dictLookup k (dictSet d k' v) = dictLookup k d := by
  induction d with
  | nil => simp [dictSet, dictLookup, hne]
  | cons kv rest ih =>
    obtain ⟨a, b⟩ := kv
    by_cases ha : a = k'
    · have hak : ¬ a = k := by rw [ha]; exact hne
      simp [dictSet, ha, dictLookup, hak, hne]
    · by_cases hak : a = k
      · simp [dictSet, ha, dictLookup, hak, Ne.symm hne]
      · simp [dictSet, ha, dictLookup, hak, ih]

/-! ### Characterizing `validate_receipt` -/

theorem mem_base_is_receipt : (lc "is_receipt", JValue.bool false) ∈ base_expected_keys :=
  List.Mem.head _

theorem mem_base_merchant : (lc "merchant", JValue.null) ∈ base_expected_keys :=
  List.Mem.tail _ (List.Mem.head _)

theorem mem_base_total : (lc "total", JValue.null) ∈ base_expected_keys :=
  List.Mem.tail _ (List.Mem.tail _ (List.Mem.tail _ (List.Mem.head _)))

theorem mem_base_currency : (lc "currency", JValue.null) ∈ base_expected_keys :=
  List.Mem.tail _ (List.Mem.tail _ (List.Mem.tail _ (List.Mem.tail _
    (List.Mem.tail _ (List.Mem.head _)))))

theorem mem_base_items : (lc "items", JValue.arr []) ∈ base_expected_keys :=
  List.Mem.tail _ (List.Mem.tail _ (List.Mem.tail _ (List.Mem.tail _
    (List.Mem.tail _ (List.Mem.tail _ (List.Mem.head _))))))

theorem base_keys_ne_message : ∀ kv ∈ base_expected_keys, kv.1 ≠ lc "message" := by
  decide

/-- When `is_receipt` is truthy: drop `message`, then demand the required
fields. -/
theorem validate_receipt_truthy (dd : List (List Char × JValue)) (v : JValue)
    (hlook : dictLookup (lc "is_receipt") dd = some v) (hv : pyTruthy v = true) :
    validate_receipt dd =
      (if required_fields.all (fun k => isNotNone (dictLookup k (dictPop (lc "message") dd)))
        then some (dictPop (lc "message") dd) else none) := by
  unfold validate_receipt
  rw [hlook]
  simp only [hv, if_true]

/-- When `is_receipt` is falsy: keep everything and set `message`, defaulting
it when absent. -/
theorem validate_receipt_falsy (dd : List (List Char × JValue)) (v : JValue)
    (hlook : dictLookup (lc "is_receipt") dd = some v) (hv : pyTruthy v = false) :
    validate_receipt dd = some (dictSet dd (lc "message")
      (match dictLookup (lc "message") dd with
        | some m => m
        | none => .str (lc "Please provide a valid receipt image."))) := by
  unfold validate_receipt
  rw [hlook]
  simp only [hv, Bool.false_eq_true, if_false]

/-- A successful validation preserves the presence of every base key. -/
theorem validate_receipt_backfill_keys (kvs dfin : List (List Char × JValue))
    (hv : validate_receipt (backfill kvs) = some dfin) :
    ∀ kv ∈ base_expected_keys, (dictLookup kv.1 dfin).isSome = true := by
  intro kv hmem
  have hbase : (dictLookup kv.1 (backfill kvs)).isSome = true := by
    rw [dictLookup_backfill kvs kv.1 kv.2 (by rwa [Prod.mk.eta])]
    rfl
  cases hir : dictLookup (lc "is_receipt") (backfill kvs) with
  | none =>
    unfold validate_receipt at hv
    rw [hir] at hv
    cases hv
  | some v =>
    by_cases htr : pyTruthy v = true
    · rw [validate_receipt_truthy _ _ hir htr] at hv
      split_ifs at hv with hall
      · rw [← Option.some.inj hv,
          dictLookup_pop_ne kv.1 (lc "message") (base_keys_ne_message kv hmem)]
        exact hbase
    · have hf : pyTruthy v = false := by revert htr; cases pyTruthy v <;> simp
      rw [validate_receipt_falsy _ _ hir hf] at hv
      rw [← Option.some.inj hv,
        dictLookup_set_other _ kv.1 (lc "message") _
          (fun h => base_keys_ne_message kv hmem h.symm)]
      exact hbase

/-! ### The claims -/

/-- C8: whatever schema keys a parsed object is missing, the normalizer
backfills each absent base field with its documented default
(`is_receipt:false, merchant:null, date:null, total:null, tax:null,
currency:null, items:[]`), keeps present fields unchanged, and the result
contains all schema keys. -/
theorem c8_backfill_defaults :
    ∀ (d : List (List Char × JValue)) (k : List Char) (v : JValue),
      (k, v) ∈ base_expected_keys →
      (dictLookup k d = none → dictLookup k (backfill d) = some v) ∧
      (∀ u, dictLookup k d = some u → dictLookup k (backfill d) = some u) ∧
      (dictLookup k (backfill d)).isSome = true := by
  intro d k v hmem
  have h := dictLookup_backfill d k v hmem
  refine ⟨fun h0 => ?_, fun u hu => ?_, ?_⟩
  · rw [h, h0]; rfl
  · rw [h, hu]; rfl
  · rw [h]; rfl

/-- C8 witness: on the empty payload the absent `items` key is backfilled to
`[]`; a `total` already present keeps its value. -/
theorem c8_backfill_defaults_witness :
    dictLookup (lc "items") (backfill []) = some (JValue.arr []) ∧
    dictLookup (lc "total") (backfill [(lc "total", JValue.num 5)]) = some (JValue.num 5) :=
  ⟨(c8_backfill_defaults [] (lc "items") (JValue.arr []) mem_base_items).1 rfl,
   (c8_backfill_defaults [(lc "total", JValue.num 5)] (lc "total") JValue.null
      mem_base_total).2.1 (JValue.num 5) rfl⟩

/-- C7 counterexample: a parsed object with `is_receipt = true` and
`merchant`, `total`, `currency` present but the `items` key absent is
*accepted* by the validator (the absent key was backfilled to `[]`, which
passes the `is not None` check), while the claim demands a raised
`IncompleteReceiptError` whenever `items` is absent. -/
theorem c7_counterexample :
    (dictLookup (lc "items")
        [(lc "is_receipt", JValue.bool true), (lc "merchant", JValue.str (lc "M")),
          (lc "total", JValue.num 5), (lc "currency", JValue.str (lc "USD"))]).isNone = true ∧
    (validate_receipt (backfill
        [(lc "is_receipt", JValue.bool true), (lc "merchant", JValue.str (lc "M")),
          (lc "total", JValue.num 5), (lc "currency", JValue.str (lc "USD"))])).isSome
      = true := by
  constructor
  · decide
  · decide

/-- C7 (amended): for a parsed object with `is_receipt = true` the validator
raises exactly when `merchant`, `total`, or `currency` is absent or null, or
when `items` is explicitly null — an absent `items` key is backfilled to
`[]` and accepted.  With `is_receipt = false` (or absent, backfilled to
false) it accepts regardless of the other fields, storing the existing
`message` or the default "Please provide a valid receipt image." when the
model omitted one. -/
theorem c7_validator_characterization :
    (∀ d : List (List Char × JValue),
      dictLookup (lc "is_receipt") d = some (JValue.bool true) →
      (((dictLookup (lc "merchant") d).getD JValue.null).isNull = true ∨
        ((dictLookup (lc "total") d).getD JValue.null).isNull = true ∨
        ((dictLookup (lc "currency") d).getD JValue.null).isNull = true ∨
        dictLookup (lc "items") d = some JValue.null) →
      validate_receipt (backfill d) = none) ∧
    (∀ d : List (List Char × JValue),
      dictLookup (lc "is_receipt") d = some (JValue.bool true) →
      ((dictLookup (lc "merchant") d).getD JValue.null).isNull = false →
      ((dictLookup (lc "total") d).getD JValue.null).isNull = false →
      ((dictLookup (lc "currency") d).getD JValue.null).isNull = false →
      ((dictLookup (lc "items") d).getD (JValue.arr [])).isNull = false →
      validate_receipt (backfill d) = some (dictPop (lc "message") (backfill d))) ∧
    (∀ d : List (List Char × JValue),
      (dictLookup (lc "is_receipt") d = some (JValue.bool false) ∨
        dictLookup (lc "is_receipt") d = none) →
      validate_receipt (backfill d) = some (dictSet (backfill d) (lc "message")
        ((dictLookup (lc "message") d).getD
          (.str (lc "Please provide a valid receipt image."))))) := by
  have hm : ∀ d : List (List Char × JValue),
      dictLookup (lc "merchant") (dictPop (lc "message") (backfill d))
        = some ((dictLookup (lc "merchant") d).getD JValue.null) := fun d => by
    rw [dictLookup_pop_ne _ _ (by decide), dictLookup_backfill d _ _ mem_base_merchant]
  have ht : ∀ d : List (List Char × JValue),
      dictLookup (lc "total") (dictPop (lc "message") (backfill d))
        = some ((dictLookup (lc "total") d).getD JValue.null) := fun d => by
    rw [dictLookup_pop_ne _ _ (by decide), dictLookup_backfill d _ _ mem_base_total]
  have hc : ∀ d : List (List Char × JValue),
      dictLookup (lc "currency") (dictPop (lc "message") (backfill d))
        = some ((dictLookup (lc "currency") d).getD JValue.null) := fun d => by
    rw [dictLookup_pop_ne _ _ (by decide), dictLookup_backfill d _ _ mem_base_currency]
  have hi : ∀ d : List (List Char × JValue),
      dictLookup (lc "items") (dictPop (lc "message") (backfill d))
        = some ((dictLookup (lc "items") d).getD (JValue.arr [])) := fun d => by
    rw [dictLookup_pop_ne _ _ (by decide), dictLookup_backfill d _ _ mem_base_items]
  refine ⟨fun d hir hbad => ?_, fun d hir h1 h2 h3 h4 => ?_, fun d hir => ?_⟩
  · have hirb : dictLookup (lc "is_receipt") (backfill d) = some (JValue.bool true) := by
      rw [dictLookup_backfill d _ _ mem_base_is_receipt, hir]
      rfl
    rw [validate_receipt_truthy _ _ hirb rfl]
    have hfalse : required_fields.all
        (fun k => isNotNone (dictLookup k (dictPop (lc "message") (backfill d)))) = false := by
      simp only [required_fields, List.all_cons, List.all_nil, hm d, ht d, hc d, hi d, isNotNone]
      rcases hbad with h | h | h | h
      · simp [h]
      · simp [h]
      · simp [h]
      · simp [h, JValue.isNull]
    rw [hfalse]
    rfl
  · have hirb : dictLookup (lc "is_receipt") (backfill d) = some (JValue.bool true) := by
      rw [dictLookup_backfill d _ _ mem_base_is_receipt, hir]
      rfl
    rw [validate_receipt_truthy _ _ hirb rfl]
    have htrue : required_fields.all
        (fun k => isNotNone (dictLookup k (dictPop (lc "message") (backfill d)))) = true := by
      simp only [required_fields, List.all_cons, List.all_nil, hm d, ht d, hc d, hi d, isNotNone]
      simp [h1, h2, h3, h4]
    rw [htrue]
    rfl
  · have hirb : dictLookup (lc "is_receipt") (backfill d) = some (JValue.bool false) := by
      rcases hir with h | h
      · rw [dictLookup_backfill d _ _ mem_base_is_receipt, h]
        rfl
      · rw [dictLookup_backfill d _ _ mem_base_is_receipt, h]
        rfl
    rw [validate_receipt_falsy _ _ hirb rfl,
      dictLookup_backfill_other d (lc "message") base_keys_ne_message]
    cases hmsg : dictLookup (lc "message") d <;> rfl

/-- C7 (amended) witness: a null `total` is rejected; a full valid receipt
is accepted with `message` dropped; `is_receipt = false` with the `message`
omitted gets the default message. -/
theorem c7_validator_characterization_witness :
    validate_receipt (backfill
        [(lc "is_receipt", JValue.bool true), (lc "total", JValue.null)]) = none ∧
    validate_receipt (backfill
        [(lc "is_receipt", JValue.bool true), (lc "merchant", JValue.str (lc "M")),
          (lc "total", JValue.num 5), (lc "currency", JValue.str (lc "USD")),
          (lc "items", JValue.arr [])])
      = some (dictPop (lc "message") (backfill
          [(lc "is_receipt", JValue.bool true), (lc "merchant", JValue.str (lc "M")),
            (lc "total", JValue.num 5), (lc "currency", JValue.str (lc "USD")),
            (lc "items", JValue.arr [])])) ∧
    validate_receipt (backfill [(lc "is_receipt", JValue.bool false)])
      = some (dictSet (backfill [(lc "is_receipt", JValue.bool false)]) (lc "message")
          (.str (lc "Please provide a valid receipt image."))) := by
  refine ⟨c7_validator_characterization.1 _ rfl (Or.inr (Or.inl (by decide))), ?_, ?_⟩
  · exact c7_validator_characterization.2.1 _ rfl (by decide) (by decide) (by decide) (by decide)
  · exact c7_validator_characterization.2.2 _ (Or.inl rfl)

/-- C10: for every download outcome and every behavior of the model
collaborator, `process_receipt` returns either `None` or a dict that
contains all seven base schema keys — every failure class collapses into the
single `None` result and no exception escapes. -/
theorem c10_process_receipt_none_or_complete :
    ∀ (downloaded : Option (List ℕ)) (llm : ℕ → Option (List Char)),
      (process_receipt downloaded llm).1 = none ∨
      ∃ d, (process_receipt downloaded llm).1 = some d ∧
        ∀ kv ∈ base_expected_keys, (dictLookup kv.1 d).isSome = true := by
  intro downloaded llm
  cases downloaded with
  | none => exact Or.inl rfl
  | some content =>
    cases hdm : detect_mime content with
    | error e => exact Or.inl (by simp only [process_receipt, hdm])
    | ok mime =>
      rcases hcall : call_openai_with_retry llm with ⟨o, k⟩
      cases o with
      | none => exact Or.inl (by simp only [process_receipt, hdm, hcall])
      | some raw =>
        cases hp : pyJsonLoads (extract_json raw) with
        | none => exact Or.inl (by simp only [process_receipt, hdm, hcall, hp])
        | some v =>
          cases v with
          | obj kvs =>
            cases hv : validate_receipt (backfill kvs) with
            | none => exact Or.inl (by simp only [process_receipt, hdm, hcall, hp, hv])
            | some dfin =>
              exact Or.inr ⟨dfin, by simp only [process_receipt, hdm, hcall, hp, hv],
                validate_receipt_backfill_keys kvs dfin hv⟩
          | null => exact Or.inl (by simp only [process_receipt, hdm, hcall, hp])
          | bool b => exact Or.inl (by simp only [process_receipt, hdm, hcall, hp])
          | num q => exact Or.inl (by simp only [process_receipt, hdm, hcall, hp])
          | str s => exact Or.inl (by simp only [process_receipt, hdm, hcall, hp])
          | arr xs => exact Or.inl (by simp only [process_receipt, hdm, hcall, hp])

/-- C10 witness: the theorem applied at a concrete failing download and a
concrete model behavior. -/
theorem c10_process_receipt_none_or_complete_witness :
    (process_receipt (some [0x25, 0x50, 0x44, 0x46])
        (fun _ => some (lc "\x7b\x7d"))).1 = none ∨
    ∃ d, (process_receipt (some [0x25, 0x50, 0x44, 0x46])
        (fun _ => some (lc "\x7b\x7d"))).1 = some d ∧
      ∀ kv ∈ base_expected_keys, (dictLookup kv.1 d).isSome = true :=
  c10_process_receipt_none_or_complete (some [0x25, 0x50, 0x44, 0x46])
    (fun _ => some (lc "\x7b\x7d"))

/-- PDF bytes cannot carry the PNG signature (they differ at the first
byte). -/
theorem pdf_not_png (bs : List ℕ) (h : bytesStartWith pdfSig bs = true) :
    bytesStartWith pngSig bs = false := by
  cases bs with
  | nil => simp [bytesStartWith, pdfSig] at h
  | cons b bs' =>
    obtain ⟨hb, -⟩ : (37 : ℕ) = b ∧ bytesStartWith [80, 68, 70] bs' = true := by
      simpa [bytesStartWith, pdfSig] using h
    subst hb
    simp [bytesStartWith, pngSig]

/-- C9: bytes beginning with `%PDF` make the pipeline fail immediately — the
`ValueError` is raised before any model call, so the result is `None` with
zero call attempts; bytes with the PNG signature are classified as
`image/png`; all other prefixes default to `image/jpeg`. -/
theorem c9_mime_detection :
    (∀ (bs : List ℕ) (f : ℕ → Option (List Char)), bytesStartWith pdfSig bs = true →
      detect_mime bs = .error (lc "PDF files not supported") ∧
        process_receipt (some bs) f = (none, 0)) ∧
    (∀ bs : List ℕ, bytesStartWith pngSig bs = true →
      detect_mime bs = .ok (lc "image/png")) ∧
    (∀ bs : List ℕ, bytesStartWith pngSig bs = false → bytesStartWith pdfSig bs = false →
      detect_mime bs = .ok (lc "image/jpeg")) := by
  refine ⟨fun bs f hpdf => ?_, fun bs hpng => ?_, fun bs hpng hpdf => ?_⟩
  · have hdm : detect_mime bs = .error (lc "PDF files not supported") := by
      unfold detect_mime
      rw [pdf_not_png bs hpdf, hpdf]
      rfl
    refine ⟨hdm, ?_⟩
    simp only [process_receipt, hdm]
  · unfold detect_mime
    rw [hpng]
    rfl
  · unfold detect_mime
    rw [hpng, hpdf]
    rfl

/-- C9 witness: concrete `%PDF`, PNG, and JPEG-ish byte strings. -/
theorem c9_mime_detection_witness :
    (detect_mime [0x25, 0x50, 0x44, 0x46, 0xAA] = .error (lc "PDF files not supported") ∧
      process_receipt (some [0x25, 0x50, 0x44, 0x46, 0xAA])
        (fun _ => some (lc "\x7b\x7d")) = (none, 0)) ∧
    detect_mime [0x89, 0x50, 0x4E, 0x47, 0x0D, 0x0A, 0x1A, 0x0A, 0x01]
      = .ok (lc "image/png") ∧
    detect_mime [0xFF, 0xD8, 0xFF] = .ok (lc "image/jpeg") :=
  ⟨c9_mime_detection.1 [0x25, 0x50, 0x44, 0x46, 0xAA] (fun _ => some (lc "\x7b\x7d"))
      (by decide),
   c9_mime_detection.2.1 _ (by decide),
   c9_mime_detection.2.2 [0xFF, 0xD8, 0xFF] (by decide) (by decide)⟩

/-- Every branch of the participant-count handler returns
`ConversationHandler.END` — none stays in a conversation state. -/
theorem split_even_number_handler_always_end (keccak : List Char → List ℕ)
    (price : Option ℚ) (ud : UserData) (text : List Char) :
    (split_even_number_handler keccak price ud text).2.1 = CONV_END := by
  cases hint : pyParseInt (pyStrip text) with
  | none => simp only [split_even_number_handler, hint]
  | some n =>
    cases hw : ud.wallet_address with
    | none => simp only [split_even_number_handler, hint, hw]
    | some w =>
      cases hck : to_checksum_address keccak w with
      | none => simp only [split_even_number_handler, hint, hw, hck]
      | some bw =>
        cases hrt : ud.receipt_total with
        | none => simp only [split_even_number_handler, hint, hw, hck, hrt]
        | some tv =>
          cases hjv : jNumVal tv with
          | none => simp only [split_even_number_handler, hint, hw, hck, hrt, hjv]
          | some total =>
            simp only [split_even_number_handler, hint, hw, hck, hrt, hjv]
            by_cases hz : n + 1 = 0
            · rw [if_pos hz]
            · rw [if_neg hz]
              cases price with
              | none => rfl
              | some p =>
                by_cases hp : p = 0
                · simp [hp]
                · simp [hp]

/-- C4 counterexample: in `AWAIT_WALLET` the free-text input
`"not-an-address"` is *stored* as the wallet address and the session moves
to `CONFIRM_WALLET` — there is no `InvalidAddressError`, no re-prompt, the
state does not stay at `AWAIT_WALLET`, and `walletAddress` is set to the
invalid text. -/
theorem c4_counterexample :
    (split_even_wallet_handler {} (lc "not-an-address")).2.1 = SPLIT_EVEN_CONFIRM ∧
    SPLIT_EVEN_CONFIRM ≠ SPLIT_EVEN_WALLET ∧
    (split_even_wallet_handler {} (lc "not-an-address")).1.wallet_address
      = some (lc "not-an-address") := by
  refine ⟨rfl, by decide, by decide⟩

/-- C4 (amended): the wallet handler performs no validation at all — any
text is stripped, stored as `walletAddress`, and the session always advances
to `CONFIRM_WALLET`; address validation is deferred to the participant-count
step, where an invalid stored address makes `Web3.to_checksum_address`
raise, producing the generic "Error: …" reply and ending the conversation. -/
theorem c4_wallet_never_validated :
    (∀ (ud : UserData) (text : List Char),
      split_even_wallet_handler ud text =
        ({ ud with wallet_address := some (pyStrip text) }, SPLIT_EVEN_CONFIRM,
          .walletConfirmPrompt (pyStrip text))) ∧
    (∀ (keccak : List Char → List ℕ) (price : Option ℚ) (ud : UserData)
        (text w : List Char) (n : ℤ),
      pyParseInt (pyStrip text) = some n →
      ud.wallet_address = some w →
      to_checksum_address keccak w = none →
      split_even_number_handler keccak price ud text = (ud, CONV_END, .errorMsg)) := by
  constructor
  · intro ud text
    rfl
  · intro keccak price ud text w n hint hw hck
    simp only [split_even_number_handler, hint, hw, hck]

/-- C4 (amended) witness. -/
theorem c4_wallet_never_validated_witness :
    split_even_wallet_handler {} (lc " 0xABC ") =
      ({ wallet_address := some (lc "0xABC") }, SPLIT_EVEN_CONFIRM,
        .walletConfirmPrompt (lc "0xABC")) ∧
    split_even_number_handler (fun _ => []) (some 2000)
        { receipt_total := some (JValue.num 100),
          wallet_address := some (lc "not-an-address") } (lc "2")
      = ({ receipt_total := some (JValue.num 100),
            wallet_address := some (lc "not-an-address") }, CONV_END, .errorMsg) := by
  constructor
  · have h := c4_wallet_never_validated.1 {} (lc " 0xABC ")
    rw [h]
    rfl
  · exact c4_wallet_never_validated.2 (fun _ => []) (some 2000) _ (lc "2")
      (lc "not-an-address") 2 (by decide) rfl (by decide)

/-- C5 counterexample: in `AWAIT_PARTICIPANT_COUNT` the non-numeric input
`"abc"` does not re-prompt with the state unchanged — the generic exception
handler replies "Error: …" and the conversation *ends*
(`ConversationHandler.END`), leaving `AWAIT_PARTICIPANT_COUNT` for good. -/
theorem c5_counterexample :
    (split_even_number_handler (fun _ => []) (some 2000)
        { receipt_total := some (JValue.num 100),
          wallet_address := some (lc "0x742d35Cc6634C0532925a3b844Bc454e4438f44e") }
        (lc "abc")).2.1 = CONV_END ∧
    CONV_END ≠ SPLIT_EVEN_NUMBER ∧
    (split_even_number_handler (fun _ => []) (some 2000)
        { receipt_total := some (JValue.num 100),
          wallet_address := some (lc "0x742d35Cc6634C0532925a3b844Bc454e4438f44e") }
        (lc "abc")).2.2 = BotReply.errorMsg := by
  refine ⟨rfl, by decide, rfl⟩

/-- C5 (amended): non-numeric input triggers the generic error reply and
*ends* the conversation with the session unchanged (no re-prompt, no state
retained); in fact every branch of the handler returns `END`.  Any parsed
integer `N` with `N + 1 ≠ 0` — including `N = 0` (sole payer) and negative
`N ≤ -2` — proceeds to the split computation when the rest of the pipeline
succeeds. -/
theorem c5_count_handler_behavior :
    (∀ (keccak : List Char → List ℕ) (price : Option ℚ) (ud : UserData) (text : List Char),
      pyParseInt (pyStrip text) = none →
      split_even_number_handler keccak price ud text = (ud, CONV_END, .errorMsg)) ∧
    (∀ (keccak : List Char → List ℕ) (price : Option ℚ) (ud : UserData) (text : List Char),
      (split_even_number_handler keccak price ud text).2.1 = CONV_END) ∧
    (∀ (keccak : List Char → List ℕ) (price : Option ℚ) (p : ℚ) (ud : UserData)
        (text w bw : List Char) (n : ℤ) (total : ℚ),
      pyParseInt (pyStrip text) = some n → n + 1 ≠ 0 →
      ud.wallet_address = some w → to_checksum_address keccak w = some bw →
      ud.receipt_total = some (JValue.num total) →
      price = some p → p ≠ 0 →
      split_even_number_handler keccak price ud text =
        ({ ud with eth_amount := some (doubleDiv (each_person_dollars total (n + 1)) p) },
          CONV_END,
          .paymentRequest
            (create_link bw 84532
              (doubleMul (doubleDiv (each_person_dollars total (n + 1)) p) (10 ^ 18)))
            (doubleDiv (each_person_dollars total (n + 1)) p)
            (each_person_dollars total (n + 1)))) := by
  refine ⟨fun keccak price ud text h => by simp only [split_even_number_handler, h],
    split_even_number_handler_always_end, ?_⟩
  intro keccak price p ud text w bw n total hint hnz hw hck hrt hpr hp
  subst hpr
  simp only [split_even_number_handler, hint, hw, hck, hrt, jNumVal]
  rw [if_neg hnz, if_neg hp]

/-- C5 (amended) witness: `"abc"` errors out and ends; `N = 0` (sole payer)
succeeds with the full total as the per-person amount. -/
theorem c5_count_handler_behavior_witness :
    split_even_number_handler (fun _ => []) (some 2000)
        { receipt_total := some (JValue.num 100),
          wallet_address := some (lc "0x742d35Cc6634C0532925a3b844Bc454e4438f44e") }
        (lc "abc")
      = ({ receipt_total := some (JValue.num 100),
            wallet_address := some (lc "0x742d35Cc6634C0532925a3b844Bc454e4438f44e") },
          CONV_END, .errorMsg) ∧
    split_even_number_handler (fun _ => List.replicate 64 0) (some 2000)
        { receipt_total := some (JValue.num 100),
          wallet_address := some (lc "0x742d35cc6634c0532925a3b844bc454e4438f44e") }
        (lc "0")
      = ({ receipt_total := some (JValue.num 100),
            wallet_address := some (lc "0x742d35cc6634c0532925a3b844bc454e4438f44e"),
            eth_amount := some (doubleDiv (each_person_dollars 100 (0 + 1)) 2000) },
          CONV_END,
          .paymentRequest
            (create_link (lc "0x742d35cc6634c0532925a3b844bc454e4438f44e") 84532
              (doubleMul (doubleDiv (each_person_dollars 100 (0 + 1)) 2000) (10 ^ 18)))
            (doubleDiv (each_person_dollars 100 (0 + 1)) 2000)
            (each_person_dollars 100 (0 + 1))) := by
  constructor
  · exact c5_count_handler_behavior.1 (fun _ => []) (some 2000) _ (lc "abc") (by decide)
  · exact c5_count_handler_behavior.2.2 (fun _ => List.replicate 64 0) (some 2000) 2000 _
      (lc "0") (lc "0x742d35cc6634c0532925a3b844bc454e4438f44e")
      (lc "0x742d35cc6634c0532925a3b844bc454e4438f44e") 0 100
      (by decide) (by decide) rfl (by decide) rfl rfl (by norm_num)

/-- C6 counterexample: after "reject" (`receipt_no`) the stored receipt
total is *not* cleared — the session still holds the rejected record's
total of 100, while the claim demands the stored receipt record be
cleared. -/
theorem c6_counterexample :
    ((handle_confirmation_callback { receipt_total := some (JValue.num 100) }
        (lc "receipt_no")).1.receipt_total).bind JValue.asNum = some 100 ∧
    (handle_confirmation_callback { receipt_total := some (JValue.num 100) }
        (lc "receipt_no")).2 = CallbackAction.promptReupload := by
  exact ⟨rfl, rfl⟩

/-- C6 (amended): the "reject" action only prompts for a new image; it
leaves the whole session — in particular the stored `receipt_total` — fully
unchanged, as does every other branch of the callback handler.  The stored
total is only ever *overwritten* when a later upload processes successfully
(`handle_receipt`, line 116); until then the rejected record's total
remains available for reuse by a later split computation. -/
theorem c6_reject_clears_nothing :
    (∀ (ud : UserData) (data : List Char), (handle_confirmation_callback ud data).1 = ud) ∧
    (∀ ud : UserData,
      (handle_confirmation_callback ud (lc "receipt_no")).2 = CallbackAction.promptReupload) ∧
    (∀ (ud : UserData) (d : List (List Char × JValue)),
      pyTruthy ((dictLookup (lc "is_receipt") d).getD (.bool false)) = true →
      handle_receipt_store ud (some d) =
        { ud with receipt_total := some ((dictLookup (lc "total") d).getD (.num 0)) }) := by
  refine ⟨fun ud data => ?_, fun ud => rfl, fun ud d h => ?_⟩
  · unfold handle_confirmation_callback
    split_ifs <;> rfl
  · simp [handle_receipt_store, h]

/-- C6 (amended) witness. -/
theorem c6_reject_clears_nothing_witness :
    (handle_confirmation_callback { receipt_total := some (JValue.num 42) }
        (lc "receipt_no")).1 = { receipt_total := some (JValue.num 42) } ∧
    handle_receipt_store {} (some [(lc "is_receipt", JValue.bool true),
        (lc "total", JValue.num 7)])
      = { receipt_total := some (JValue.num 7) } := by
  constructor
  · exact c6_reject_clears_nothing.1 _ (lc "receipt_no")
  · have h := c6_reject_clears_nothing.2.2 {}
      [(lc "is_receipt", JValue.bool true), (lc "total", JValue.num 7)] (by rfl)
    rw [h]
    rfl

/-- C1 counterexample: at `T = 100.00`, `N = 2` the computed per-person
amount (`float(100 / 3)`) is strictly *greater* than the exact quotient
100/3 — it is the binary64 value 4691249611844267/2^47 ≈ 33.333333333333336,
so it is neither the exact decimal quotient nor any truncation of it (every
truncation is ≤ 100/3), contradicting "exact decimal arithmetic, truncated,
never rounded up" (it still is below 33.34). -/
theorem c1_counterexample :
    (100 : ℚ) / 3 < each_person_dollars 100 3 ∧
    (each_person_dollars 100 3).num = 4691249611844267 ∧
    (each_person_dollars 100 3).den = 140737488355328 ∧
    each_person_dollars 100 3 < 3334 / 100 := by
  refine ⟨?_, ?_, ?_, ?_⟩
  · with_unfolding_all decide
  · with_unfolding_all decide
  · with_unfolding_all decide
  · with_unfolding_all decide

/-- C1 (amended): `COMPUTE_AND_RESPOND` computes the per-person amount with
IEEE-754 binary64 floating-point division (round to nearest, ties to even),
not exact decimal arithmetic: the result is the correctly rounded double of
`T/(N+1)`, within relative error `2^-53` of the exact quotient, and can
exceed it (so it is not a truncation). -/
theorem c1_binary64_division (T : ℚ) (num : ℤ) (hT : 0 < T) (hn : 0 < num) :
    each_person_dollars T num = roundDouble (T / num) ∧
    |each_person_dollars T num - T / num| ≤ (T / num) / 2 ^ 53 := by
  have hnq : (0 : ℚ) < (num : ℚ) := by exact_mod_cast hn
  have hq : (0 : ℚ) < T / (num : ℚ) := div_pos hT hnq
  refine ⟨rfl, ?_⟩
  unfold each_person_dollars doubleDiv roundDouble
  rw [if_neg hq.ne', if_pos hq]
  exact roundPos_err _ hq

/-- C1 (amended) witness at `T = 100`, `N + 1 = 3`. -/
theorem c1_binary64_division_witness :
    0 < (100 : ℚ) ∧ 0 < (3 : ℤ) ∧
    |each_person_dollars 100 3 - 100 / 3| ≤ (100 / 3) / 2 ^ 53 :=
  ⟨by norm_num, by norm_num, (c1_binary64_division 100 3 (by norm_num) (by norm_num)).2⟩

/-- C3 counterexample: a well-formed JSON object wrapped in plain prose
(no Markdown fences) is *not* isolated: `extract_json` returns the entire
text (stripped), not the embedded object, and parsing that text fails — so
the normalizer does not "locate and extract exactly the first embedded JSON
object" from prose-wrapped output. -/
theorem c3_counterexample :
    (pyJsonLoads (lc "\x7b\"is_receipt\": true\x7d")).isSome = true ∧
    extract_json (lc "Here is the result: \x7b\"is_receipt\": true\x7d hope this helps")
      = lc "Here is the result: \x7b\"is_receipt\": true\x7d hope this helps" ∧
    extract_json (lc "Here is the result: \x7b\"is_receipt\": true\x7d hope this helps")
      ≠ lc "\x7b\"is_receipt\": true\x7d" ∧
    (pyJsonLoads (extract_json
        (lc "Here is the result: \x7b\"is_receipt\": true\x7d hope this helps"))).isNone
      = true := by
  refine ⟨by decide, by decide, by decide, by decide⟩

/-- C3 (amended): `extract_json` isolates a JSON object only when it sits in
a triple-backtick fenced block (returning the span from the first `\x7b`
after the first fence to the last `\x7d` before a closing fence); for text
containing no backticks at all — including JSON wrapped in plain prose — it
returns the whole text stripped of surrounding whitespace, leaving the
prose in place. -/
theorem c3_extract_json_behavior :
    (∀ t : List Char, (∀ c ∈ t, c ≠ '\x60') → extract_json t = pyStrip t) ∧
    (∀ pre body post : List Char,
      (∀ c ∈ pre, c ≠ '\x60') → (∀ c ∈ post, c ≠ '\x60') →
      extract_json
          (pre ++ '\x60' :: '\x60' :: '\x60' :: 'j' :: 's' :: 'o' :: 'n' :: '\n' :: '\x7b' ::
            (body ++ '\x7d' :: '\n' :: '\x60' :: '\x60' :: '\x60' :: post))
        = '\x7b' :: body ++ ['\x7d']) :=
  ⟨extract_json_no_fence, extract_json_fenced⟩

/-- C3 (amended) witness. -/
theorem c3_extract_json_behavior_witness :
    extract_json (lc "no fences \x7b\"a\": 1\x7d end")
      = pyStrip (lc "no fences \x7b\"a\": 1\x7d end") ∧
    extract_json
        (lc "Sure! " ++ '\x60' :: '\x60' :: '\x60' :: 'j' :: 's' :: 'o' :: 'n' :: '\n' :: '\x7b' ::
          (lc "\"a\": 1" ++ '\x7d' :: '\n' :: '\x60' :: '\x60' :: '\x60' :: lc " bye"))
      = '\x7b' :: lc "\"a\": 1" ++ ['\x7d'] :=
  ⟨c3_extract_json_behavior.1 _ (by decide),
   c3_extract_json_behavior.2 (lc "Sure! ") (lc "\"a\": 1") (lc " bye")
     (by decide) (by decide)⟩

/-! ### Round-trip lemmas for `create_link` (C2) -/

theorem stripLit_self_append (p r : List Char) : stripLit p (p ++ r) = some r := by
  induction p with
  | nil => rfl
  | cons c ps ih => simp [stripLit, ih]

theorem takeWhile_append_stop (p : Char → Bool) (l : List Char) (c₀ : Char) (r : List Char)
    (hl : ∀ c ∈ l, p c = true) (hc : p c₀ = false) :
    (l ++ c₀ :: r).takeWhile p = l := by
  induction l with
  | nil => simp [List.takeWhile_cons, hc]
  | cons a l ih =>
    have ha := hl a (List.mem_cons_self _ _)
    simp [List.takeWhile_cons, ha, ih (fun c hcm => hl c (List.mem_cons_of_mem _ hcm))]

theorem dropWhile_append_stop (p : Char → Bool) (l : List Char) (c₀ : Char) (r : List Char)
    (hl : ∀ c ∈ l, p c = true) (hc : p c₀ = false) :
    (l ++ c₀ :: r).dropWhile p = c₀ :: r := by
  induction l with
  | nil => simp [List.dropWhile_cons, hc]
  | cons a l ih =>
    have ha := hl a (List.mem_cons_self _ _)
    simp [List.dropWhile_cons, ha, ih (fun c hcm => hl c (List.mem_cons_of_mem _ hcm))]

theorem takeWhile_all_true (p : Char → Bool) (l : List Char) (hl : ∀ c ∈ l, p c = true) :
    l.takeWhile p = l := by
  induction l with
  | nil => rfl
  | cons a l ih =>
    simp [List.takeWhile_cons, hl a (List.mem_cons_self _ _),
      ih (fun c hc => hl c (List.mem_cons_of_mem _ hc))]

theorem dropWhile_all_true (p : Char → Bool) (l : List Char) (hl : ∀ c ∈ l, p c = true) :
    l.dropWhile p = [] := by
  induction l with
  | nil => rfl
  | cons a l ih =>
    simp [List.dropWhile_cons, hl a (List.mem_cons_self _ _),
      ih (fun c hc => hl c (List.mem_cons_of_mem _ hc))]

theorem dropWhile_all_false (p : Char → Bool) (l : List Char) (hl : ∀ c ∈ l, p c = false) :
    l.dropWhile p = l := by
  cases l with
  | nil => rfl
  | cons a l => simp [List.dropWhile_cons, hl a (List.mem_cons_self _ _)]

theorem dropWhile_append_of_ne_nil (p : Char → Bool) (A B : List Char)
    (h : A.dropWhile p ≠ []) : (A ++ B).dropWhile p = A.dropWhile p ++ B := by
  induction A with
  | nil => exact absurd rfl h
  | cons a A ih =>
    by_cases hp : p a = true
    · have h' : A.dropWhile p ≠ [] := by
        rwa [List.dropWhile_cons, if_pos hp] at h
      simp [List.dropWhile_cons, hp, ih h']
    · simp [List.dropWhile_cons, hp]

theorem dropWhile_append_of_nil (p : Char → Bool) (A B : List Char)
    (h : A.dropWhile p = []) : (A ++ B).dropWhile p = B.dropWhile p := by
  induction A with
  | nil => rfl
  | cons a A ih =>
    by_cases hp : p a = true
    · have h' : A.dropWhile p = [] := by
        rwa [List.dropWhile_cons, if_pos hp] at h
      simp [List.dropWhile_cons, hp, ih h']
    · rw [List.dropWhile_cons, if_neg hp] at h
      cases h

/-- Every stripped string decomposes as the strip result followed by a run
of the stripped character. -/
theorem rstripChar_decomp (c : Char) (l : List Char) :
    ∃ t, l = rstripChar c l ++ List.replicate t c := by
  refine ⟨(l.reverse.takeWhile (fun d => d = c)).reverse.length, ?_⟩
  have htw : (l.reverse.takeWhile (fun d => d = c)).reverse
      = List.replicate (l.reverse.takeWhile (fun d => d = c)).reverse.length c := by
    apply List.eq_replicate_of_mem
    intro b hb
    rw [List.mem_reverse] at hb
    have := List.mem_takeWhile_imp hb
    exact of_decide_eq_true this
  calc l = l.reverse.reverse := (List.reverse_reverse l).symm
    _ = (l.reverse.takeWhile (fun d => d = c) ++ l.reverse.dropWhile (fun d => d = c)).reverse := by
        rw [List.takeWhile_append_dropWhile]
    _ = (l.reverse.dropWhile (fun d => d = c)).reverse
          ++ (l.reverse.takeWhile (fun d => d = c)).reverse := List.reverse_append _ _
    _ = rstripChar c l ++ (l.reverse.takeWhile (fun d => d = c)).reverse := rfl
    _ = _ := by rw [htw]; simp

theorem charsToNat_replicate_zero (t : ℕ) (l : List Char) :
    charsToNat (List.replicate t '0' ++ l) = charsToNat l := by
  unfold charsToNat
  rw [List.foldl_append]
  have : List.foldl digitStep 0 (List.replicate t '0') = 0 := by
    induction t with
    | zero => rfl
    | succ t ih => simpa [List.replicate_succ, digitStep] using ih
  rw [this]

theorem foldl_digitStep_replicate_zero (a t : ℕ) :
    List.foldl digitStep a (List.replicate t '0') = a * 10 ^ t := by
  induction t generalizing a with
  | zero => simp
  | succ t ih =>
    rw [List.replicate_succ, List.foldl_cons, ih]
    simp [digitStep]
    ring

theorem charsToNat_append_replicate (l : List Char) (t : ℕ) :
    charsToNat (l ++ List.replicate t '0') = charsToNat l * 10 ^ t := by
  unfold charsToNat
  rw [List.foldl_append, foldl_digitStep_replicate_zero]

theorem natToChars_ne_nil (n : ℕ) : natToChars n ≠ [] := by
  unfold natToChars
  split_ifs with h
  · simp
  · cases n with
    | zero => exact absurd rfl h
    | succ k => simp [natDigits, digitsFuel]

theorem natToChars_head_digit (n : ℕ) :
    ∃ d ds, natToChars n = d :: ds ∧ isDigitChar d = true := by
  cases hnc : natToChars n with
  | nil => exact absurd hnc (natToChars_ne_nil n)
  | cons d ds =>
    refine ⟨d, ds, rfl, ?_⟩
    have hall := natToChars_all_digits n
    rw [hnc, List.all_eq_true] at hall
    exact hall d (List.mem_cons_self _ _)

theorem digit_ne_dash (c : Char) (h : isDigitChar c = true) : c ≠ '-' := by
  intro he
  rw [he] at h
  cases h

theorem digit_ne_dot (c : Char) (h : isDigitChar c = true) : ¬ (c = '.') := by
  intro he
  rw [he] at h
  cases h

theorem digit_ne_at (c : Char) (h : isDigitChar c = true) : ¬ (c = '@') := by
  intro he
  rw [he] at h
  cases h

theorem digitsFuel_length_le (f : ℕ) :
    ∀ n k, n ≤ f → n < 10 ^ k → (digitsFuel f n).length ≤ k := by
  induction f with
  | zero => intro n k _ _; simp [digitsFuel]
  | succ f ih =>
    intro n k hn hk
    by_cases h0 : n = 0
    · simp [digitsFuel, h0]
    · cases k with
      | zero => simp at hk; omega
      | succ k =>
        simp only [digitsFuel, h0, if_false, List.length_cons]
        have hk' : n / 10 < 10 ^ k := by
          rw [Nat.div_lt_iff_lt_mul (by norm_num)]
          rw [pow_succ] at hk
          exact hk
        have hdivle : n / 10 ≤ f := by
          have : n / 10 < n := Nat.div_lt_self (by omega) (by norm_num)
          omega
        have := ih (n / 10) k hdivle hk'
        omega

theorem natToChars_length_le_six (n : ℕ) (h : n < 10 ^ 6) : (natToChars n).length ≤ 6 := by
  unfold natToChars
  split_ifs with h0
  · simp
  · simpa [natDigits] using digitsFuel_length_le n n 6 le_rfl h

theorem contains_dot_mid (X P : List Char) : (X ++ '.' :: P).contains '.' = true := by
  induction X with
  | nil => rfl
  | cons a X ih =>
    show List.elem '.' (a :: (X ++ '.' :: P)) = true
    rw [List.elem_cons]
    split
    · rfl
    · exact ih

theorem padded_all_digits (fr : ℕ) :
    (List.replicate (6 - (natToChars fr).length) '0' ++ natToChars fr).all isDigitChar
      = true := by
  simp only [List.all_append, Bool.and_eq_true]
  refine ⟨?_, natToChars_all_digits fr⟩
  rw [List.all_eq_true]
  intro c hc
  rw [List.eq_of_mem_replicate hc]
  rfl

theorem formatFixed_nat_div (m : ℕ) :
    formatFixed ((m : ℚ) / 10 ^ 6) = fixedOfNat m := by
  unfold formatFixed
  rw [if_neg (not_lt.mpr (by positivity : (0 : ℚ) ≤ (m : ℚ) / 10 ^ 6))]
  have h2 : (m : ℚ) / 10 ^ 6 * 10 ^ 6 = ((m : ℤ) : ℚ) := by
    rw [div_mul_cancel₀]
    · push_cast
      ring
    · norm_num
  rw [h2, rhe_intCast, Int.toNat_natCast]

theorem rstripChar_zero_of_all_zero (A : List Char) (h : ∀ d ∈ A, d = '0') :
    rstripChar '0' A = [] := by
  unfold rstripChar
  rw [dropWhile_all_true _ _ (fun c hc => by
    rw [List.mem_reverse] at hc
    simp [h c hc])]
  rfl

theorem parseDecimalQ_digits (l : List Char) (hne : l ≠ []) (hd : l.all isDigitChar = true) :
    parseDecimalQ l = some ((charsToNat l : ℚ)) := by
  obtain ⟨d, ds, hl, hdd⟩ : ∃ d ds, l = d :: ds ∧ isDigitChar d = true := by
    cases hc : l with
    | nil => exact absurd hc hne
    | cons d ds =>
      rw [hc, List.all_eq_true] at hd
      exact ⟨d, ds, rfl, hd d (List.mem_cons_self _ _)⟩
  have hhead : l.head? = some d := by rw [hl]; rfl
  have hneg : (decide (l.head? = some '-')) = false := by
    rw [hhead]
    simp [digit_ne_dash d hdd]
  have htake : l.takeWhile isDigitChar = l :=
    takeWhile_all_true _ _ (List.all_eq_true.mp hd)
  have hdrop : l.dropWhile isDigitChar = [] :=
    dropWhile_all_true _ _ (List.all_eq_true.mp hd)
  simp only [parseDecimalQ, hneg, Bool.false_eq_true, if_false, htake, hdrop, hne]

theorem parseDecimalQ_digits_frac (X P : List Char)
    (hXne : X ≠ []) (hXd : X.all isDigitChar = true)
    (hPne : P ≠ []) (hPd : P.all isDigitChar = true) :
    parseDecimalQ (X ++ '.' :: P)
      = some ((charsToNat X : ℚ) + (charsToNat P : ℚ) / 10 ^ P.length) := by
  obtain ⟨d, ds, hl, hdd⟩ : ∃ d ds, X = d :: ds ∧ isDigitChar d = true := by
    cases hc : X with
    | nil => exact absurd hc hXne
    | cons d ds =>
      rw [hc, List.all_eq_true] at hXd
      exact ⟨d, ds, rfl, hXd d (List.mem_cons_self _ _)⟩
  have hhead : (X ++ '.' :: P).head? = some d := by rw [hl]; rfl
  have hneg : (decide ((X ++ '.' :: P).head? = some '-')) = false := by
    rw [hhead]
    simp [digit_ne_dash d hdd]
  have htake : (X ++ '.' :: P).takeWhile isDigitChar = X :=
    takeWhile_append_stop _ _ _ _ (List.all_eq_true.mp hXd) (by decide)
  have hdrop : (X ++ '.' :: P).dropWhile isDigitChar = '.' :: P :=
    dropWhile_append_stop _ _ _ _ (List.all_eq_true.mp hXd) (by decide)
  simp only [parseDecimalQ, hneg, Bool.false_eq_true, if_false, htake, hdrop, hXne, hPne, hPd,
    ne_eq, not_false_eq_true, and_self, if_true]

theorem stripValueStr_fixedOfNat_zero (m : ℕ) (hfr : m % 10 ^ 6 = 0) :
    stripValueStr (fixedOfNat m) = natToChars (m / 10 ^ 6) := by
  unfold fixedOfNat
  rw [hfr]
  have hrep : List.replicate (6 - (natToChars 0).length) '0' ++ natToChars 0
      = List.replicate 6 '0' := by decide
  rw [hrep]
  unfold stripValueStr
  rw [if_pos (contains_dot_mid _ _)]
  have h1 : rstripChar '0' (natToChars (m / 10 ^ 6) ++ '.' :: List.replicate 6 '0')
      = natToChars (m / 10 ^ 6) ++ ['.'] := by
    unfold rstripChar
    have hrev : (natToChars (m / 10 ^ 6) ++ '.' :: List.replicate 6 '0').reverse
        = List.replicate 6 '0' ++ '.' :: (natToChars (m / 10 ^ 6)).reverse := by
      simp
    rw [hrev, dropWhile_append_of_nil _ _ _
      (dropWhile_all_true _ _ (fun c hc => by simp [List.eq_of_mem_replicate hc]))]
    rw [List.dropWhile_cons, if_neg (by decide)]
    simp
  rw [h1]
  unfold rstripChar
  have hrev2 : (natToChars (m / 10 ^ 6) ++ ['.']).reverse
      = '.' :: (natToChars (m / 10 ^ 6)).reverse := by simp
  rw [hrev2, List.dropWhile_cons, if_pos (by decide)]
  rw [dropWhile_all_false _ _ (fun c hc => by
    rw [List.mem_reverse] at hc
    have := List.all_eq_true.mp (natToChars_all_digits (m / 10 ^ 6)) c hc
    simp [digit_ne_dot c this])]
  simp

theorem stripValueStr_frac (X P : List Char)
    (hPd : ∀ c ∈ P, isDigitChar c = true)
    (hne : rstripChar '0' P ≠ []) :
    stripValueStr (X ++ '.' :: P) = X ++ '.' :: rstripChar '0' P := by
  have hdw : P.reverse.dropWhile (fun d => d = '0') = (rstripChar '0' P).reverse := by
    conv_rhs => rw [rstripChar]
    simp
  have hrevne : (rstripChar '0' P).reverse ≠ [] := by
    intro h
    exact hne (by simpa using congrArg List.reverse h)
  have hP'dig : ∀ c ∈ rstripChar '0' P, isDigitChar c = true := by
    intro c hc
    obtain ⟨t, hdec⟩ := rstripChar_decomp '0' P
    exact hPd c (by rw [hdec]; exact List.mem_append_left _ hc)
  unfold stripValueStr
  rw [if_pos (contains_dot_mid _ _)]
  have h1 : rstripChar '0' (X ++ '.' :: P) = X ++ '.' :: rstripChar '0' P := by
    conv_lhs => rw [rstripChar]
    have hrev : (X ++ '.' :: P).reverse = P.reverse ++ '.' :: X.reverse := by simp
    rw [hrev, dropWhile_append_of_ne_nil _ _ _ (by rw [hdw]; exact hrevne), hdw]
    simp
  rw [h1]
  conv_lhs => rw [rstripChar]
  have hrev2 : (X ++ '.' :: rstripChar '0' P).reverse
      = (rstripChar '0' P).reverse ++ '.' :: X.reverse := by simp
  rw [hrev2]
  have hall : ∀ c ∈ (rstripChar '0' P).reverse, (decide (c = '.')) = false := fun c hc => by
    rw [List.mem_reverse] at hc
    simp [digit_ne_dot c (hP'dig c hc)]
  rw [dropWhile_append_of_ne_nil _ _ _ (by
      rw [dropWhile_all_false _ _ hall]
      exact hrevne),
    dropWhile_all_false _ _ hall]
  simp

theorem strip_pos_aux (X P : List Char) (n : ℕ)
    (hPd : ∀ c ∈ P, isDigitChar c = true)
    (hPlen : P.length = 6)
    (hPval : charsToNat P = n) (hn : n ≠ 0) :
    ∃ P' t, stripValueStr (X ++ '.' :: P) = X ++ '.' :: P' ∧
      P'.all isDigitChar = true ∧ P' ≠ [] ∧
      charsToNat P' * 10 ^ t = n ∧ P'.length + t = 6 := by
  obtain ⟨t, hdecomp⟩ := rstripChar_decomp '0' P
  have hP'ne : rstripChar '0' P ≠ [] := by
    intro hnil
    rw [hnil, List.nil_append] at hdecomp
    rw [hdecomp] at hPval
    have hz : charsToNat (List.replicate t '0') = 0 := by
      have := charsToNat_replicate_zero t []
      rwa [List.append_nil] at this
    rw [hz] at hPval
    exact hn hPval.symm
  have hval : charsToNat (rstripChar '0' P) * 10 ^ t = n := by
    rw [← hPval]
    conv_rhs => rw [hdecomp]
    rw [charsToNat_append_replicate]
  have hlen : (rstripChar '0' P).length + t = 6 := by
    have hl := congrArg List.length hdecomp
    rw [List.length_append, List.length_replicate, hPlen] at hl
    omega
  have hP'dig : (rstripChar '0' P).all isDigitChar = true := by
    rw [List.all_eq_true]
    intro c hc
    exact hPd c (by rw [hdecomp]; exact List.mem_append_left _ hc)
  exact ⟨rstripChar '0' P, t, stripValueStr_frac X P hPd hP'ne, hP'dig, hP'ne, hval, hlen⟩

theorem stripValueStr_fixedOfNat_pos (m : ℕ) (hfr : m % 10 ^ 6 ≠ 0) :
    ∃ P' t, stripValueStr (fixedOfNat m) = natToChars (m / 10 ^ 6) ++ '.' :: P' ∧
      P'.all isDigitChar = true ∧ P' ≠ [] ∧
      charsToNat P' * 10 ^ t = m % 10 ^ 6 ∧ P'.length + t = 6 := by
  have hPd : ∀ c ∈ (List.replicate (6 - (natToChars (m % 10 ^ 6)).length) '0'
      ++ natToChars (m % 10 ^ 6)), isDigitChar c = true :=
    List.all_eq_true.mp (padded_all_digits _)
  have hFlen : (natToChars (m % 10 ^ 6)).length ≤ 6 :=
    natToChars_length_le_six _ (Nat.mod_lt _ (by norm_num))
  have hPlen : (List.replicate (6 - (natToChars (m % 10 ^ 6)).length) '0'
      ++ natToChars (m % 10 ^ 6)).length = 6 := by
    rw [List.length_append, List.length_replicate]
    omega
  have hPval : charsToNat (List.replicate (6 - (natToChars (m % 10 ^ 6)).length) '0'
      ++ natToChars (m % 10 ^ 6)) = m % 10 ^ 6 := by
    rw [charsToNat_replicate_zero, charsToNat_natToChars]
  obtain ⟨P', t, hstrip, hdig, hne, hval, hlen⟩ :=
    strip_pos_aux (natToChars (m / 10 ^ 6)) _ (m % 10 ^ 6) hPd hPlen hPval hfr
  exact ⟨P', t, hstrip, hdig, hne, hval, hlen⟩

/-- The rendered-then-stripped value string of a whole number of millionths
parses back to exactly that value. -/
theorem parseDecimalQ_stripValueStr (m : ℕ) :
    parseDecimalQ (stripValueStr (formatFixed ((m : ℚ) / 10 ^ 6)))
      = some ((m : ℚ) / 10 ^ 6) := by
  rw [formatFixed_nat_div]
  by_cases hfr : m % 10 ^ 6 = 0
  · rw [stripValueStr_fixedOfNat_zero m hfr,
      parseDecimalQ_digits _ (natToChars_ne_nil _) (natToChars_all_digits _),
      charsToNat_natToChars]
    congr 1
    have hdvd : 10 ^ 6 ∣ m := Nat.dvd_of_mod_eq_zero hfr
    have hm : m / 10 ^ 6 * 10 ^ 6 = m := Nat.div_mul_cancel hdvd
    rw [eq_div_iff (by norm_num : ((10 : ℚ) ^ 6) ≠ 0)]
    exact_mod_cast hm
  · obtain ⟨P', t, hstrip, hdig, hne, hval, hlen⟩ := stripValueStr_fixedOfNat_pos m hfr
    rw [hstrip,
      parseDecimalQ_digits_frac _ _ (natToChars_ne_nil _) (natToChars_all_digits _) hne hdig,
      charsToNat_natToChars]
    congr 1
    have hm : m / 10 ^ 6 * 10 ^ 6 + charsToNat P' * 10 ^ t = m := by
      rw [hval]
      omega
    have key : (m : ℚ) = ((m / 10 ^ 6 : ℕ) : ℚ) * 10 ^ 6 + (charsToNat P' : ℚ) * 10 ^ t := by
      exact_mod_cast hm.symm
    rw [key]
    have hsplit : (10 : ℚ) ^ 6 = 10 ^ P'.length * 10 ^ t := by
      rw [← pow_add, hlen]
    rw [hsplit]
    field_simp
    ring

theorem intToChars_natCast (n : ℕ) : intToChars (n : ℤ) = natToChars n := by
  unfold intToChars
  rw [if_neg (not_lt.mpr (Int.natCast_nonneg n)), Int.toNat_natCast]

/-- General round-trip: for any recipient without an `@` character, any
natural chain id, and any value that is a whole number of millionths,
parsing the link built by `create_link` recovers all three components
exactly. -/
theorem create_link_roundtrip (addr : List Char) (chain m : ℕ)
    (haddr : ∀ c ∈ addr, c ≠ '@') :
    parse_payment_link (create_link addr (chain : ℤ) ((m : ℚ) / 10 ^ 6))
      = some (addr, (chain : ℤ), (m : ℚ) / 10 ^ 6) := by
  obtain ⟨d, ds, hnc, hdd⟩ := natToChars_head_digit chain
  have hq : lc "?value=" = '?' :: lc "value=" := rfl
  have hparse : parseDecimalQ (stripValueStr (formatFixed ((m : ℚ) / 10 ^ 6)))
      = some ((m : ℚ) / 10 ^ 6) := parseDecimalQ_stripValueStr m
  have hlink : create_link addr (chain : ℤ) ((m : ℚ) / 10 ^ 6)
      = lc "send/pay-" ++ (addr ++ '@' :: (natToChars chain ++ '?' ::
          (lc "value=" ++ stripValueStr (formatFixed ((m : ℚ) / 10 ^ 6))))) := by
    unfold create_link
    rw [intToChars_natCast, hq]
    simp [List.append_assoc]
  rw [hlink]
  generalize hV : stripValueStr (formatFixed ((m : ℚ) / 10 ^ 6)) = V at hparse ⊢
  have hdrop : (addr ++ '@' :: (natToChars chain ++ '?' :: (lc "value=" ++ V))).dropWhile
      (fun c => c ≠ '@') = '@' :: (natToChars chain ++ '?' :: (lc "value=" ++ V)) :=
    dropWhile_append_stop _ addr '@' _ (fun c hc => by simp [haddr c hc]) (by decide)
  have htake : (addr ++ '@' :: (natToChars chain ++ '?' :: (lc "value=" ++ V))).takeWhile
      (fun c => c ≠ '@') = addr :=
    takeWhile_append_stop _ addr '@' _ (fun c hc => by simp [haddr c hc]) (by decide)
  have hhead : (natToChars chain ++ '?' :: (lc "value=" ++ V)).head? = some d := by
    rw [hnc]
    rfl
  have hcneg : (decide ((natToChars chain ++ '?' :: (lc "value=" ++ V)).head? = some '-'))
      = false := by
    rw [hhead]
    simp [digit_ne_dash d hdd]
  have hcds : (natToChars chain ++ '?' :: (lc "value=" ++ V)).takeWhile isDigitChar
      = natToChars chain :=
    takeWhile_append_stop _ _ '?' _ (List.all_eq_true.mp (natToChars_all_digits chain))
      (by decide)
  have hr3 : (natToChars chain ++ '?' :: (lc "value=" ++ V)).dropWhile isDigitChar
      = '?' :: (lc "value=" ++ V) :=
    dropWhile_append_stop _ _ '?' _ (List.all_eq_true.mp (natToChars_all_digits chain))
      (by decide)
  have hsv : stripLit (lc "?value=") ('?' :: (lc "value=" ++ V)) = some V := by
    have h2 : '?' :: (lc "value=" ++ V) = lc "?value=" ++ V := rfl
    rw [h2, stripLit_self_append]
  have hne : (natToChars chain = []) = False := eq_false (natToChars_ne_nil chain)
  simp only [parse_payment_link, stripLit_self_append, hdrop, htake, hcneg, Bool.false_eq_true,
    if_false, hcds, hr3, hne, hsv, hparse, Option.map_some', charsToNat_natToChars]

/-- C2 counterexample: the amount `2 ^ (-18) = 1/262144` ether has exactly 18
decimal digits, yet the link built for it parses back to `4/10^6`
(because `format(value, 'f')` rounded the rendered value to six decimal
places), which differs from the original amount. -/
theorem c2_counterexample :
    parse_payment_link (create_link (lc "0x742d35Cc6634C0532925a3b844Bc454e4438f44e")
        ((84532 : ℕ) : ℤ) ((1 : ℚ) / 262144))
      = some (lc "0x742d35Cc6634C0532925a3b844Bc454e4438f44e", ((84532 : ℕ) : ℤ),
          ((4 : ℕ) : ℚ) / 10 ^ 6)
    ∧ ((4 : ℕ) : ℚ) / 10 ^ 6 ≠ (1 : ℚ) / 262144 := by
  constructor
  · have hfmt : formatFixed ((1 : ℚ) / 262144) = formatFixed (((4 : ℕ) : ℚ) / 10 ^ 6) := by
      with_unfolding_all decide
    have hlink : create_link (lc "0x742d35Cc6634C0532925a3b844Bc454e4438f44e")
        ((84532 : ℕ) : ℤ) ((1 : ℚ) / 262144)
        = create_link (lc "0x742d35Cc6634C0532925a3b844Bc454e4438f44e")
            ((84532 : ℕ) : ℤ) (((4 : ℕ) : ℚ) / 10 ^ 6) := by
      unfold create_link
      rw [hfmt]
    rw [hlink]
    exact create_link_roundtrip _ 84532 4 (by decide)
  · with_unfolding_all decide

/-- C2: the claim as stated is false — `create_link` renders the amount with
`format(value, 'f')`, which rounds to six decimal places, so an amount with
up to 18 decimal digits (e.g. `1/262144` ether) is not recovered by parsing
the produced link (see the counterexample).  The corrected property, proved
here: for every recipient string free of `@`, every natural chain id, and
every amount that is a whole number of millionths (at most six decimal
places), the `send/pay-<addr>@<chain>?value=<amount>` descriptor — rendered
fixed-point with trailing zeros stripped and no exponent notation — parses
back to exactly the original address, chain id, and amount. -/
theorem c2_link_roundtrip_six_decimals (addr : List Char) (chain m : ℕ)
    (haddr : ∀ c ∈ addr, c ≠ '@') :
    parse_payment_link (create_link addr (chain : ℤ) ((m : ℚ) / 10 ^ 6))
      = some (addr, (chain : ℤ), (m : ℚ) / 10 ^ 6) :=
  create_link_roundtrip addr chain m haddr

theorem c2_link_roundtrip_six_decimals_witness :
    (∀ c ∈ lc "0x742d35Cc6634C0532925a3b844Bc454e4438f44e", c ≠ '@') ∧
    parse_payment_link (create_link (lc "0x742d35Cc6634C0532925a3b844Bc454e4438f44e")
        ((84532 : ℕ) : ℤ) (((125000 : ℕ) : ℚ) / 10 ^ 6))
      = some (lc "0x742d35Cc6634C0532925a3b844Bc454e4438f44e", ((84532 : ℕ) : ℤ),
          ((125000 : ℕ) : ℚ) / 10 ^ 6) :=
  ⟨by decide, c2_link_roundtrip_six_decimals _ 84532 125000 (by decide)⟩

end Basesplit
